import Mathlib

/-!
The runit service records of `linux_runit.go`.

A shallow embedding of the runit back end of the daemon package: the record
`runitRecord`, the two checks `checkInstalled` and `checkRunning`, and the five
lifecycle operations `Install`, `Remove`, `Start`, `Stop`, `Status`.

The operating system and the libraries are modelled explicitly:

* a Go string is a `String`; the patterns and path separators of this file are
  ASCII, so searching by character and searching by byte agree;
* a Go `error` is its text, `nil` is `none`;
* a file system maps a place (the names from the root down) to a node; there are no
  symbolic links; a path name is walked as the kernel walks it, through directories
  that must exist, and the names that `path.Join` has cleaned lead to the place their
  elements spell;
* the world says which places the process is denied access to: there `os.Stat`,
  `os.Mkdir` and `os.Create` fail, whatever is at the place;
* system calls that change the file system can also fail for reasons outside the
  model, as the environment decides (`Env.fault`, `Env.removeFault`);
* the supervisor is an arbitrary state type `S`; what `sv status`, `sv start` and
  `sv stop` answer and do to it is given by the environment;
* every subprocess that this file starts through `exec.Command` is appended to the
  list `issued` of the world;
* `regexp` is a backtracking matcher with leftmost-first semantics, `text/template`
  a parser and an executor for text and field actions.
-/

set_option autoImplicit false

namespace Daemon

/-! ## Regular expressions (the part of `regexp` that `checkRunning` uses) -/

/-- Regular expressions: literal characters, ranges, concatenation, greedy
one-or-more and numbered capture groups. -/
inductive Regex where
  | char (c : Char)
  | range (lo hi : Char)
  | seq (a b : Regex)
  | plus (a : Regex)
  | group (i : Nat) (a : Regex)
  deriving Repr, DecidableEq

/-- A thread of the backtracking matcher: the input still to be read and the
capture groups closed so far (latest first). -/
structure MState where
  rest : List Char
  caps : List (Nat × List Char)
  deriving Repr, DecidableEq

/-- Greedy iteration: every way of running `step` one or more times, the
longest iterations first. `fuel` bounds the number of iterations. -/
def runPlus (step : MState → List MState) : Nat → MState → List MState
  | 0, _ => []
  | fuel + 1, s => (step s).flatMap (fun s1 => runPlus step fuel s1 ++ [s1])

/-- All the ways the expression matches a prefix of the input, in the order
a backtracking matcher tries them (leftmost-first semantics). -/
def Regex.run : Regex → MState → List MState
  | .char c, s =>
    match s.rest with
    | x :: xs => if x = c then [{ s with rest := xs }] else []
    | [] => []
  | .range lo hi, s =>
    match s.rest with
    | x :: xs => if lo.val ≤ x.val ∧ x.val ≤ hi.val then [{ s with rest := xs }] else []
    | [] => []
  | .seq a b, s => (a.run s).flatMap (fun s1 => b.run s1)
  | .plus a, s => runPlus a.run (s.rest.length + 1) s
  | .group i a, s =>
    (a.run s).map (fun s1 =>
      { s1 with caps := (i, s.rest.take (s.rest.length - s1.rest.length)) :: s1.caps })

/-- Number of capture groups of the expression. -/
def Regex.numGroups : Regex → Nat
  | .char _ => 0
  | .range _ _ => 0
  | .seq a b => a.numGroups + b.numGroups
  | .plus a => a.numGroups
  | .group _ a => a.numGroups + 1

/-- The expression written back in the pattern syntax of `regexp`. -/
def Regex.pattern : Regex → List Char
  | .char c => [c]
  | .range lo hi => ['[', lo, '-', hi, ']']
  | .seq a b => a.pattern ++ b.pattern
  | .plus a => a.pattern ++ ['+']
  | .group _ a => '(' :: a.pattern ++ [')']

/-- Concatenation of the literal characters of a word. -/
def Regex.word (c : Char) : List Char → Regex
  | [] => .char c
  | d :: ds => .seq (.char c) (Regex.word d ds)

/-- Leftmost match: the first start position at which the expression matches,
with the preferred match there. Returns the matched text and the groups. -/
def Regex.find (re : Regex) : List Char → Option (List Char × List (Nat × List Char))
  | [] =>
    match (re.run { rest := [], caps := [] }).head? with
    | some m => some ([], m.caps)
    | none => none
  | c :: cs =>
    match (re.run { rest := c :: cs, caps := [] }).head? with
    | some m => some ((c :: cs).take ((c :: cs).length - m.rest.length), m.caps)
    | none => Regex.find re cs

/-- Text of capture group `i` in a list of closed groups; an unset group is
the empty string. -/
def capture (caps : List (Nat × List Char)) (i : Nat) : List Char :=
  match caps.find? (fun p => p.1 == i) with
  | some p => p.2
  | none => []

/-- The function `regexp.MatchString` for a pattern that compiles: whether the
string contains any match of the expression. -/
def matchString (re : Regex) (s : String) : Bool :=
  (re.find s.data).isSome

/-- The method `(*Regexp).FindStringSubmatch`: the text of the leftmost match and of
each of its groups, or the empty slice when there is no match. -/
def findStringSubmatch (re : Regex) (s : String) : List String :=
  match re.find s.data with
  | some (whole, caps) =>
    String.mk whole :: (List.range re.numGroups).map (fun i => String.mk (capture caps (i + 1)))
  | none => []

/-- The pattern `"run: "` of `checkRunning`. -/
def runRegex : Regex := Regex.word 'r' ['u', 'n', ':', ' ']

/-- The pattern `"pid ([0-9]+)"` of `checkRunning`. -/
def pidRegex : Regex :=
  .seq (Regex.word 'p' ['i', 'd', ' ']) (.group 1 (.plus (.range '0' '9')))

/-! ## Paths (`path.Join`, `path.Clean`) -/

/-- The elements of a path: the pieces between slashes. -/
def splitSlash : List Char → List (List Char)
  | [] => [[]]
  | c :: cs =>
    if c = '/' then [] :: splitSlash cs
    else
      match splitSlash cs with
      | [] => [[c]]
      | h :: t => (c :: h) :: t

/-- One element read by `path.Clean`; `stack` holds the elements kept so far,
the last one first. Empty and `.` elements are dropped, `..` removes the
element before it, or is dropped at the root of a rooted path. -/
def cleanStep (rooted : Bool) (stack : List (List Char)) (comp : List Char) :
    List (List Char) :=
  if comp = [] ∨ comp = ['.'] then stack
  else if comp = ['.', '.'] then
    match stack with
    | [] => if rooted then [] else [comp]
    | top :: below => if top = ['.', '.'] then comp :: stack else below
  else comp :: stack

/-- The elements that remain after lexical processing, in order. -/
def cleanElems (rooted : Bool) (s : List Char) : List (List Char) :=
  ((splitSlash s).foldl (cleanStep rooted) []).reverse

/-- Whether the path starts with a slash. -/
def isRooted (s : List Char) : Bool :=
  s.head? == some '/'

/-- The elements joined with single slashes. -/
def joinSlash : List (List Char) → List Char
  | [] => []
  | [a] => a
  | a :: b :: t => a ++ '/' :: joinSlash (b :: t)

/-- The function `path.Clean`: the shortest path name equivalent to the argument by
purely lexical processing. -/
def pathClean (s : String) : String :=
  if s.data = [] then "."
  else
    let out := (if isRooted s.data then ['/'] else []) ++ joinSlash (cleanElems (isRooted s.data) s.data)
    if out = [] then "." else String.mk out

/-- The function `path.Join`: the non-empty elements joined with slashes, cleaned; the
empty string when there is none. -/
def pathJoin (elem : List String) : String :=
  match elem.filter (fun e => e.data ≠ []) with
  | [] => ""
  | es => pathClean (String.mk (joinSlash (es.map String.data)))

/-! ## File system -/

/-- A resolved path: the names from the root down. -/
abbrev Path := List (List Char)

/-- What a path can name: a directory, or a regular file with its content. -/
inductive Node where
  | dir (mode : Nat)
  | file (content : String) (mode : Nat)
  deriving Repr, DecidableEq

/-- The file system: what each resolved path names, if anything. -/
abbrev FS := Path → Option Node

/-- The system calls that can fail for reasons outside the model (permissions,
a full or read-only disk, an I/O error). -/
inductive Syscall where
  | mkdir (p : Path)
  | openCreate (p : Path)
  | write (p : Path) (data : String)
  | fchmod (p : Path) (mode : Nat)
  deriving Repr, DecidableEq

/-- What a cleaned rooted path name stands for: its elements, from the root. -/
def resolve (name : String) : Path :=
  cleanElems true name.data

/-- The file system with one path set. -/
def FS.set (fs : FS) (p : Path) (n : Node) : FS :=
  fun q => if q = p then some n else fs q

/-- Permission bits left by the process's umask. -/
def applyUmask (umask perm : Nat) : Nat :=
  perm - (perm &&& umask)

/-- The walk of the kernel along the elements of a path name, from the directory
`cur`: what is walked through must be a directory, an empty element or `.` stays,
`..` goes up, a name goes down. The place reached need not exist. -/
def walk (fs : FS) : Path → List (List Char) → Except String Path
  | cur, [] => .ok cur
  | cur, c :: cs =>
    match fs cur with
    | some (.dir _) =>
      if c = [] ∨ c = ['.'] then walk fs cur cs
      else if c = ['.', '.'] then walk fs cur.dropLast cs
      else walk fs (cur ++ [c]) cs
    | some (.file _ _) => .error "not a directory"
    | none => .error "no such file or directory"

/-- The place a path name leads to, walking from the root. -/
def locate (fs : FS) (name : List Char) : Except String Path :=
  if name = [] then .error "no such file or directory" else walk fs [] (splitSlash name)

/-- The function `os.Stat`: the node behind the name. It fails when the walk fails,
when access to the place is denied, and when nothing is there. -/
def stat (denied : Path → Option String) (fs : FS) (name : String) : Except String Node :=
  match locate fs name.data with
  | .error e => .error ("stat " ++ name ++ ": " ++ e)
  | .ok p =>
    match denied p with
    | some e => .error ("stat " ++ name ++ ": " ++ e)
    | none =>
      match fs p with
      | some n => .ok n
      | none => .error ("stat " ++ name ++ ": no such file or directory")

/-- A path name without its trailing slashes. -/
def dropTrailingSlashes (name : List Char) : List Char :=
  (name.reverse.dropWhile (· = '/')).reverse

/-- The name that `mkdir` walks: trailing slashes do not count, but the root keeps
its name. -/
def mkdirTarget (name : List Char) : List Char :=
  if dropTrailingSlashes name = [] then name else dropTrailingSlashes name

/-- The function `os.Mkdir`: a directory is made where the name leads, if nothing is
there yet. -/
def mkdir (denied : Path → Option String) (fault : FS → Syscall → Option String)
    (umask : Nat) (fs : FS) (name : String) (perm : Nat) : Option String × FS :=
  match locate fs (mkdirTarget name.data) with
  | .error e => (some ("mkdir " ++ name ++ ": " ++ e), fs)
  | .ok p =>
    match denied p with
    | some e => (some ("mkdir " ++ name ++ ": " ++ e), fs)
    | none =>
      match fs p with
      | some _ => (some ("mkdir " ++ name ++ ": file exists"), fs)
      | none =>
        match fault fs (.mkdir p) with
        | some e => (some e, fs)
        | none => (none, fs.set p (.dir (applyUmask umask perm)))

/-- The name that `os.MkdirAll` makes first: the path name up to the slash before its
last element (an empty name when there is no such slash beyond the root). -/
def parentName (name : List Char) : List Char :=
  ((dropTrailingSlashes name).reverse.dropWhile (· ≠ '/')).reverse.dropLast

/-- The function `os.MkdirAll`: nothing to do when the name is a directory, an error
when it is something else; otherwise the parent is made first, then the directory
itself, and a failure of that last step is forgiven when the directory is there.
`fuel` bounds the depth of the recursion; the length of the name is enough. -/
def mkdirAllFuel (denied : Path → Option String) (fault : FS → Syscall → Option String)
    (umask perm : Nat) : Nat → FS → List Char → Option String × FS
  | 0, fs, name => (some ("mkdir " ++ String.mk name ++ ": file name too long"), fs)
  | fuel + 1, fs, name =>
    match stat denied fs (String.mk name) with
    | .ok (.dir _) => (none, fs)
    | .ok (.file _ _) => (some ("mkdir " ++ String.mk name ++ ": not a directory"), fs)
    | .error _ =>
      match (if parentName name ≠ [] then
          mkdirAllFuel denied fault umask perm fuel fs (parentName name)
        else (none, fs)) with
      | (some e, fs1) => (some e, fs1)
      | (none, fs1) =>
        match mkdir denied fault umask fs1 (String.mk name) perm with
        | (none, fs2) => (none, fs2)
        | (some e, fs2) =>
          match stat denied fs2 (String.mk name) with
          | .ok (.dir _) => (none, fs2)
          | _ => (some e, fs2)

/-- The function `os.MkdirAll`. -/
def mkdirAll (denied : Path → Option String) (fault : FS → Syscall → Option String)
    (umask : Nat) (fs : FS) (name : String) (perm : Nat) : Option String × FS :=
  mkdirAllFuel denied fault umask perm (name.data.length + 1) fs name.data

/-- The function `os.Create`: the file is created with mode 0666 before umask, or
truncated when it exists. The open file is identified by the place it is at. -/
def create (denied : Path → Option String) (fault : FS → Syscall → Option String)
    (umask : Nat) (fs : FS) (name : String) : Except String (Path × FS) :=
  match locate fs name.data with
  | .error e => .error ("open " ++ name ++ ": " ++ e)
  | .ok p =>
    match denied p with
    | some e => .error ("open " ++ name ++ ": " ++ e)
    | none =>
      match fault fs (.openCreate p) with
      | some e => .error e
      | none =>
        match fs p with
        | some (.dir _) => .error ("open " ++ name ++ ": is a directory")
        | some (.file _ mode) => .ok (p, fs.set p (.file "" mode))
        | none => .ok (p, fs.set p (.file "" (applyUmask umask 0o666)))

/-- The method `(*File).Write` at the end of the file. -/
def write (fault : FS → Syscall → Option String) (fs : FS) (file : Path) (data : String) :
    Option String × FS :=
  match fault fs (.write file data) with
  | some e => (some e, fs)
  | none =>
    match fs file with
    | some (.file content mode) => (none, fs.set file (.file (content ++ data) mode))
    | _ => (some "write: bad file descriptor", fs)

/-- The method `(*File).Chmod`. -/
def chmod (fault : FS → Syscall → Option String) (fs : FS) (file : Path) (mode : Nat) :
    Option String × FS :=
  match fault fs (.fchmod file mode) with
  | some e => (some e, fs)
  | none =>
    match fs file with
    | some (.file content _) => (none, fs.set file (.file content mode))
    | _ => (some "chmod: bad file descriptor", fs)

/-- The function `os.RemoveAll`: the path and everything below it is removed. When the
environment makes it fail, it has removed what it could: the paths below for which
`removed` holds. Removing the root itself always fails. -/
def removeAll (fault : FS → Path → Option (String × (Path → Bool))) (fs : FS)
    (name : String) : Option String × FS :=
  match fault fs (resolve name) with
  | some (e, removed) =>
    (some e, fun q => if (resolve name) <+: q ∧ q ≠ resolve name ∧ removed q then none else fs q)
  | none =>
    if resolve name = [] then
      (some ("unlinkat " ++ name ++ ": device or resource busy"),
        fun q => if q = [] then fs q else none)
    else (none, fun q => if (resolve name) <+: q then none else fs q)

/-! ## Templates (the part of `text/template` that `Install` uses) -/

/-- A parsed template: literal text and field actions such as `{{.Name}}`. -/
inductive TNode where
  | text (s : List Char)
  | field (name : List Char)
  deriving Repr, DecidableEq

/-- The text collected so far (latest character first) as a node, if any. -/
def flushText (acc : List Char) : List TNode :=
  if acc = [] then [] else [.text acc.reverse]

/-- The body of an action: spaces around it are trimmed, what remains must be a field
reference, a dot followed by an identifier. -/
def parseAction (body : List Char) : Except String TNode :=
  match (body.dropWhile (· = ' ')).reverse.dropWhile (· = ' ') |>.reverse with
  | '.' :: c :: cs =>
    if (c :: cs).all (fun x => x.isAlphanum || x == '_') then .ok (.field (c :: cs))
    else .error "template: runitConfig: unexpected token in action"
  | _ => .error "template: runitConfig: unsupported action"

/-- The template lexer and parser, one character at a time. `text` is the literal
text read since the last action; `action` is the body read so far when inside
`{{ }}` (both latest character first); `half` tells that the previous character was
a brace that may open, or close, an action. -/
def parseFrom : List Char → List Char → Option (List Char) → Bool → Except String (List TNode)
  | [], text, none, half => .ok (flushText (if half then '\x7b' :: text else text))
  | [], _, some _, _ => .error "template: runitConfig: unclosed action"
  | c :: rest, text, none, false =>
    if c = '\x7b' then parseFrom rest text none true else parseFrom rest (c :: text) none false
  | c :: rest, text, none, true =>
    if c = '\x7b' then
      match parseFrom rest [] (some []) false with
      | .ok ns => .ok (flushText text ++ ns)
      | .error e => .error e
    else parseFrom rest (c :: '\x7b' :: text) none false
  | c :: rest, text, some body, false =>
    if c = '\x7d' then parseFrom rest text (some body) true
    else parseFrom rest text (some (c :: body)) false
  | c :: rest, text, some body, true =>
    if c = '\x7d' then
      match parseAction body.reverse, parseFrom rest [] none false with
      | .ok n, .ok ns => .ok (n :: ns)
      | .error e, _ => .error e
      | _, .error e => .error e
    else parseFrom rest text (some (c :: '\x7d' :: body)) false

/-- The method `(*Template).Parse`. -/
def templateParse (src : String) : Except String (List TNode) :=
  parseFrom src.data [] none false

/-- The value of a node on the data: text as it is, a field by its name, without any
escaping. -/
def evalNode (data : List (String × String)) : TNode → Except String String
  | .text s => .ok (String.mk s)
  | .field name =>
    match data.find? (fun p => p.1 == String.mk name) with
    | some p => .ok p.2
    | none => .error ("template: runitConfig: can't evaluate field " ++ String.mk name)

/-- The method `(*Template).Execute`: each node is evaluated and written to the file in
turn; the first failure stops the execution and what was written stays. -/
def templateExecute (fault : FS → Syscall → Option String) (data : List (String × String))
    (file : Path) : List TNode → FS → Option String × FS
  | [], fs => (none, fs)
  | n :: ns, fs =>
    match evalNode data n with
    | .error e => (some e, fs)
    | .ok out =>
      match write fault fs file out with
      | (some e, fs1) => (some e, fs1)
      | (none, fs1) => templateExecute fault data file ns fs1

/-! ## The package around `linux_runit.go` and the world -/

/-- What the file takes from the rest of the package and from the system: the
message constants `success`, `failed` and `rootPrivileges`, the helpers
`checkPrivileges` and `executablePath`, the outcome of the `sv` commands on a
supervisor state of type `S`, and the failures of system calls. -/
structure Env (S : Type) where
  success : String
  failed : String
  rootPrivileges : String
  checkPrivileges : Bool
  executablePath : String → Except String String
  svStatus : FS → S → String → Except String String
  svStart : FS → S → String → Option String × S
  svStop : FS → S → String → Option String × S
  umask : Nat
  fault : FS → Syscall → Option String
  removeFault : FS → Path → Option (String × (Path → Bool))

/-- The world an operation runs in: the file system, the places that the process is
denied access to (with the error that says so), the supervisor, and the subprocesses
started so far (their argument vectors, oldest first). -/
structure World (S : Type) where
  fs : FS
  denied : Path → Option String
  sup : S
  issued : List (List String)

/-- The record of a runit service. -/
structure runitRecord where
  name : String
  description : String
  deriving Repr, DecidableEq

/-- The template of the run script. -/
def runitConfig : String :=
  "#!/bin/bash\n#\x7b\x7b.Description\x7d\x7d\n\nexec \x7b\x7b.Path\x7d\x7d >>/var/log/\x7b\x7b.Name\x7d\x7d.log 2>&1\n"

/-- Standard service path. -/
def runitRecord.servicePath (linux : runitRecord) : String :=
  "/etc/service/" ++ linux.name

variable {S : Type}

/-- Check service is installed. -/
def runitRecord.checkInstalled (linux : runitRecord) (w : World S) : Bool :=
  match stat w.denied w.fs (pathJoin [linux.servicePath, "run"]) with
  | .ok _ => true
  | .error _ => false

/-- Check service is running. -/
def runitRecord.checkRunning (linux : runitRecord) (env : Env S) (w : World S) :
    (String × Bool) × World S :=
  let w1 := { w with issued := w.issued ++ [["sv", "status", linux.name]] }
  match env.svStatus w.fs w.sup linux.name with
  | .ok output =>
    if matchString runRegex output then
      let data := findStringSubmatch pidRegex output
      if data.length > 1 then
        (("Service (pid  " ++ data.getD 1 "" ++ ") is running...", true), w1)
      else (("Service is running...", true), w1)
    else (("Service is stoped", false), w1)
  | .error _ => (("Service is stoped", false), w1)

/-- Install the service. -/
def runitRecord.Install (linux : runitRecord) (env : Env S) (w : World S) :
    (String × Option String) × World S :=
  let installAction := "Install " ++ linux.description ++ ":"
  if env.checkPrivileges == false then
    ((installAction ++ env.failed, some env.rootPrivileges), w)
  else
    let srvPath := linux.servicePath
    if linux.checkInstalled w == true then
      ((installAction ++ env.failed, some (linux.description ++ " already installed")), w)
    else
      match mkdirAll w.denied env.fault env.umask w.fs srvPath 0o755 with
      | (some err, fs1) => ((installAction ++ env.failed, some err), { w with fs := fs1 })
      | (none, fs1) =>
        match create w.denied env.fault env.umask fs1 (pathJoin [srvPath, "run"]) with
        | .error err => ((installAction ++ env.failed, some err), { w with fs := fs1 })
        | .ok (file, fs2) =>
          match env.executablePath linux.name with
          | .error err => ((installAction ++ env.failed, some err), { w with fs := fs2 })
          | .ok execPatch =>
            match templateParse runitConfig with
            | .error err => ((installAction ++ env.failed, some err), { w with fs := fs2 })
            | .ok templ =>
              match templateExecute env.fault
                  [("Name", linux.name), ("Description", linux.description), ("Path", execPatch)]
                  file templ fs2 with
              | (some err, fs3) => ((installAction ++ env.failed, some err), { w with fs := fs3 })
              | (none, fs3) =>
                let fs4 := (chmod env.fault fs3 file 0o755).2
                ((installAction ++ env.success, none), { w with fs := fs4 })

/-- Remove the service. -/
def runitRecord.Remove (linux : runitRecord) (env : Env S) (w : World S) :
    (String × Option String) × World S :=
  let removeAction := "Removing " ++ linux.description ++ ":"
  if env.checkPrivileges == false then
    ((removeAction ++ env.failed, some env.rootPrivileges), w)
  else if linux.checkInstalled w == false then
    ((removeAction ++ env.failed, some (linux.description ++ " is not installed")), w)
  else
    let w1 : World S :=
      { w with sup := (env.svStop w.fs w.sup linux.name).2,
               issued := w.issued ++ [["sv", "stop", linux.name]] }
    match (env.svStop w.fs w.sup linux.name).1 with
    | some err => ((removeAction ++ env.failed, some err), w1)
    | none =>
      match removeAll env.removeFault w1.fs (pathJoin [linux.servicePath]) with
      | (some err, fs2) => ((removeAction ++ env.failed, some err), { w1 with fs := fs2 })
      | (none, fs2) => ((removeAction ++ env.success, none), { w1 with fs := fs2 })

/-- Start the service. -/
def runitRecord.Start (linux : runitRecord) (env : Env S) (w : World S) :
    (String × Option String) × World S :=
  let startAction := "Starting " ++ linux.description ++ ":"
  if env.checkPrivileges == false then
    ((startAction ++ env.failed, some env.rootPrivileges), w)
  else if linux.checkInstalled w == false then
    ((startAction ++ env.failed, some (linux.description ++ " is not installed")), w)
  else
    match linux.checkRunning env w with
    | ((_, status), w1) =>
      if status == true then
        ((startAction ++ env.failed, some "service already running"), w1)
      else
        let w2 : World S :=
          { w1 with sup := (env.svStart w1.fs w1.sup linux.name).2,
                    issued := w1.issued ++ [["sv", "start", linux.name]] }
        match (env.svStart w1.fs w1.sup linux.name).1 with
        | some err => ((startAction ++ env.failed, some err), w2)
        | none => ((startAction ++ env.success, none), w2)

/-- Stop the service. -/
def runitRecord.Stop (linux : runitRecord) (env : Env S) (w : World S) :
    (String × Option String) × World S :=
  let stopAction := "Stopping " ++ linux.description ++ ":"
  if env.checkPrivileges == false then
    ((stopAction ++ env.failed, some env.rootPrivileges), w)
  else if linux.checkInstalled w == false then
    ((stopAction ++ env.failed, some (linux.description ++ " is not installed")), w)
  else
    match linux.checkRunning env w with
    | ((_, status), w1) =>
      if status == false then
        ((stopAction ++ env.failed, some "service already stopped"), w1)
      else
        let w2 : World S :=
          { w1 with sup := (env.svStop w1.fs w1.sup linux.name).2,
                    issued := w1.issued ++ [["sv", "stop", linux.name]] }
        match (env.svStop w1.fs w1.sup linux.name).1 with
        | some err => ((stopAction ++ env.failed, some err), w2)
        | none => ((stopAction ++ env.success, none), w2)

/-- Status - Get service status. -/
def runitRecord.Status (linux : runitRecord) (env : Env S) (w : World S) :
    (String × Option String) × World S :=
  if env.checkPrivileges == false then
    (("", some env.rootPrivileges), w)
  else if linux.checkInstalled w == false then
    (("Status could not defined", some (linux.description ++ " is not installed")), w)
  else
    match linux.checkRunning env w with
    | ((statusAction, _), w1) => ((statusAction, none), w1)

/-! ## A concrete system, for examples -/

/-- A file system with the directories `/`, `/etc` and `/etc/service` and, when
`installed` is set, the service directory of `foo` with a run script. -/
def exampleFS (installed : Bool) : FS := fun p =>
  if p = [] ∨ p = ["etc".data] ∨ p = ["etc".data, "service".data] then some (.dir 0o755)
  else if installed ∧ p = ["etc".data, "service".data, "foo".data] then some (.dir 0o755)
  else if installed ∧ p = ["etc".data, "service".data, "foo".data, "run".data] then
    some (.file "#!/bin/sh\nexec foo\n" 0o755)
  else none

/-- An environment in which no system call fails. The supervisor state is the
number of running copies of the service; `sv status` answers with `status` when given,
`sv start` and `sv stop` fail when `svFails` is set. -/
def exampleEnv (priv : Bool) (status : Option String) (svFails : Bool) : Env Nat where
  success := " [ OK ]"
  failed := " [FAILED]"
  rootPrivileges := "You must have root user privileges"
  checkPrivileges := priv
  executablePath := fun name => .ok ("/usr/bin/" ++ name)
  svStatus := fun _ _ name =>
    match status with
    | some out => .ok out
    | none => .error ("unable to open supervise/ok for " ++ name)
  svStart := fun _ n _ => if svFails then (some "exit status 1", n) else (none, n + 1)
  svStop := fun _ n _ => if svFails then (some "exit status 1", n) else (none, 0)
  umask := 0o022
  fault := fun _ _ => none
  removeFault := fun _ _ => none

/-- The same environment on a system where changing the mode of a file fails. -/
def noChmodEnv : Env Nat :=
  { exampleEnv true none false with
    fault := fun _ c =>
      match c with
      | .fchmod _ _ => some "chmod /etc/service/foo/run: operation not permitted"
      | _ => none }

/-- The world of the examples. -/
def exampleWorld (installed : Bool) : World Nat :=
  { fs := exampleFS installed, denied := fun _ => none, sup := 0, issued := [] }

/-- The world in which `foo` is installed and the process is denied access to its run
script. -/
def lockedWorld : World Nat :=
  { exampleWorld true with
    denied := fun p =>
      if p = ["etc".data, "service".data, "foo".data, "run".data] then some "permission denied"
      else none }

/-- The service of the examples. -/
def foo : runitRecord := { name := "foo", description := "Foo daemon" }

/-- An element that `path.Clean` keeps in a rooted path. -/
def IsName (c : List Char) : Prop :=
  c ≠ [] ∧ c ≠ ['.'] ∧ c ≠ ['.', '.'] ∧ '/' ∉ c

/-! ## The pid of a status line, in the words of the specification -/

/-- The digits that follow `pid ` when the text starts with `pid ` and a digit. -/
def pidAt (u : List Char) : Option (List Char) :=
  if "pid ".data <+: u ∧ (u.drop 4).takeWhile Char.isDigit ≠ [] then
    some ((u.drop 4).takeWhile Char.isDigit)
  else none

/-- The maximal run of digits after the leftmost `pid ` that a digit follows. -/
def leftmostPid : List Char → Option (List Char)
  | [] => none
  | c :: cs =>
    match pidAt (c :: cs) with
    | some n => some n
    | none => leftmostPid cs

/-- The text `pid ` followed by a decimal digit occurs in `out` right after `pre`. -/
def PidOccursAt (out pre : List Char) : Prop :=
  ∃ d rest, out = pre ++ "pid ".data ++ d :: rest ∧ d.isDigit = true

/-- The digits `n` are the maximal run of digits after the `pid ` that follows `pre`
in `out`. -/
def IsPidRun (out pre n : List Char) : Prop :=
  ∃ rest, out = pre ++ "pid ".data ++ n ++ rest ∧ n ≠ [] ∧ (∀ c ∈ n, c.isDigit = true) ∧
    ∀ c, rest.head? = some c → c.isDigit = false

/-! ## The privilege gate -/

/-- C1: when the privilege check reports false, each of Install, Remove, Start, Stop
and Status returns the error `rootPrivileges` and leaves the world as it was: the
file system and the supervisor are unchanged and no subprocess is started. -/
theorem unprivileged_no_effect (linux : runitRecord) (env : Env S) (w : World S)
    (hpriv : env.checkPrivileges = false) :
    ((linux.Install env w).1.2 = some env.rootPrivileges ∧ (linux.Install env w).2 = w) ∧
    ((linux.Remove env w).1.2 = some env.rootPrivileges ∧ (linux.Remove env w).2 = w) ∧
    ((linux.Start env w).1.2 = some env.rootPrivileges ∧ (linux.Start env w).2 = w) ∧
    ((linux.Stop env w).1.2 = some env.rootPrivileges ∧ (linux.Stop env w).2 = w) ∧
    ((linux.Status env w).1.2 = some env.rootPrivileges ∧ (linux.Status env w).2 = w) := by
  simp [runitRecord.Install, runitRecord.Remove, runitRecord.Start, runitRecord.Stop,
    runitRecord.Status, hpriv]

/-- Witness of C1 on the example system without privileges. -/
theorem unprivileged_no_effect_witness :
    (exampleEnv false none false).checkPrivileges = false ∧
    ((foo.Install (exampleEnv false none false) (exampleWorld true)).1.2
        = some "You must have root user privileges" ∧
      (foo.Install (exampleEnv false none false) (exampleWorld true)).2 = exampleWorld true) :=
  ⟨rfl, (unprivileged_no_effect foo (exampleEnv false none false) (exampleWorld true) rfl).1⟩

/-! ## Paths: cleaning does not change what a rooted path names -/

theorem splitSlash_ne_nil (s : List Char) : splitSlash s ≠ [] := by
  cases s with
  | nil => simp [splitSlash]
  | cons c cs =>
    simp only [splitSlash]
    split
    · simp
    · split <;> simp

theorem splitSlash_append (a b : List Char) :
    splitSlash (a ++ '/' :: b) = splitSlash a ++ splitSlash b := by
  induction a with
  | nil => simp [splitSlash]
  | cons c cs ih =>
    have ih2 : splitSlash (cs.append ('/' :: b)) = splitSlash cs ++ splitSlash b := ih
    simp only [List.cons_append, splitSlash]
    split
    · simp [ih]
    · rw [ih2]
      cases h : splitSlash cs with
      | nil => exact absurd h (splitSlash_ne_nil cs)
      | cons x xs => simp

theorem splitSlash_of_no_slash (a : List Char) (h : '/' ∉ a) : splitSlash a = [a] := by
  induction a with
  | nil => simp [splitSlash]
  | cons c cs ih =>
    simp only [List.mem_cons, not_or] at h
    have hc : c ≠ '/' := fun e => h.1 e.symm
    simp [splitSlash, hc, ih h.2]

theorem mem_splitSlash_no_slash (s : List Char) : ∀ c ∈ splitSlash s, '/' ∉ c := by
  induction s with
  | nil => simp [splitSlash]
  | cons x xs ih =>
    intro c hc
    simp only [splitSlash] at hc
    split at hc
    · rcases List.mem_cons.1 hc with h | h
      · simp [h]
      · exact ih c h
    · cases hs : splitSlash xs with
      | nil => exact absurd hs (splitSlash_ne_nil xs)
      | cons h t =>
        rw [hs] at hc ih
        simp only at hc
        rcases List.mem_cons.1 hc with e | e
        · subst e
          have := ih h (by simp)
          simp only [List.mem_cons, not_or]
          exact ⟨fun e => by rename_i hx; exact hx e.symm, this⟩
        · exact ih c (by simp [e])

theorem splitSlash_joinSlash (comps : List (List Char)) (hne : comps ≠ [])
    (h : ∀ c ∈ comps, '/' ∉ c) : splitSlash (joinSlash comps) = comps := by
  induction comps with
  | nil => exact absurd rfl hne
  | cons a t ih =>
    cases t with
    | nil => simpa [joinSlash] using splitSlash_of_no_slash a (h a (by simp))
    | cons b t2 =>
      simp only [joinSlash, splitSlash_append]
      rw [splitSlash_of_no_slash a (h a (by simp)), ih (by simp) (fun c hc => h c (by simp [hc]))]
      simp

theorem cleanStep_name (rooted : Bool) (stack : List (List Char)) (c : List Char)
    (h : IsName c) : cleanStep rooted stack c = c :: stack := by
  simp [cleanStep, h.1, h.2.1, h.2.2.1]

theorem foldl_cleanStep_names (rooted : Bool) (comps stack : List (List Char))
    (h : ∀ c ∈ comps, IsName c) :
    comps.foldl (cleanStep rooted) stack = comps.reverse ++ stack := by
  induction comps generalizing stack with
  | nil => simp
  | cons a t ih =>
    simp only [List.foldl_cons, cleanStep_name rooted stack a (h a (by simp))]
    rw [ih _ (fun c hc => h c (by simp [hc]))]
    simp

theorem cleanStep_rooted_names (stack : List (List Char)) (c : List Char)
    (hs : ∀ x ∈ stack, IsName x) (hc : '/' ∉ c) :
    ∀ x ∈ cleanStep true stack c, IsName x := by
  unfold cleanStep
  split
  · exact hs
  · rename_i h1
    simp only [not_or] at h1
    split
    · cases stack with
      | nil => simp
      | cons top below =>
        simp only
        split
        · rename_i ht
          exact absurd ht (hs top (by simp)).2.2.1
        · exact fun x hx => hs x (by simp [hx])
    · rename_i h2
      intro x hx
      rcases List.mem_cons.1 hx with e | e
      · subst e; exact ⟨h1.1, h1.2, h2, hc⟩
      · exact hs x e

theorem foldl_cleanStep_rooted_names (comps stack : List (List Char))
    (hs : ∀ x ∈ stack, IsName x) (hc : ∀ c ∈ comps, '/' ∉ c) :
    ∀ x ∈ comps.foldl (cleanStep true) stack, IsName x := by
  induction comps generalizing stack with
  | nil => simpa using hs
  | cons a t ih =>
    simp only [List.foldl_cons]
    exact ih _ (cleanStep_rooted_names stack a hs (hc a (by simp)))
      (fun c h => hc c (by simp [h]))

theorem cleanElems_rooted_names (s : List Char) : ∀ x ∈ cleanElems true s, IsName x := by
  intro x hx
  simp only [cleanElems, List.mem_reverse] at hx
  exact foldl_cleanStep_rooted_names _ [] (by simp) (mem_splitSlash_no_slash s) x hx

/-- A clean rooted path resolves to its own elements. -/
theorem cleanElems_slash_joinSlash (comps : List (List Char)) (h : ∀ c ∈ comps, IsName c) :
    cleanElems true ('/' :: joinSlash comps) = comps := by
  have hsplit : splitSlash ('/' :: joinSlash comps) = [] :: splitSlash (joinSlash comps) := by
    simp [splitSlash]
  cases comps with
  | nil => simp [cleanElems, splitSlash, joinSlash, cleanStep]
  | cons a t =>
    rw [cleanElems, hsplit, splitSlash_joinSlash _ (by simp) (fun c hc => (h c hc).2.2.2)]
    have h0 : cleanStep true [] [] = [] := by simp [cleanStep]
    rw [List.foldl_cons, h0, foldl_cleanStep_names true _ [] h]
    simp

theorem resolve_pathClean (s : String) (h : isRooted s.data = true) :
    resolve (pathClean s) = resolve s := by
  have hne : s.data ≠ [] := by
    intro e
    simp [isRooted, e] at h
  have hout : (if isRooted s.data then ['/'] else []) ++ joinSlash (cleanElems (isRooted s.data) s.data)
      = '/' :: joinSlash (cleanElems true s.data) := by
    simp [h]
  simp only [pathClean, hne, if_false, hout]
  simp only [resolve, List.cons_ne_nil, if_false]
  exact cleanElems_slash_joinSlash _ (cleanElems_rooted_names s.data)

theorem cleanElems_append_name (a b : List Char) (hb : IsName b) :
    cleanElems true (a ++ '/' :: b) = cleanElems true a ++ [b] := by
  simp only [cleanElems, splitSlash_append, splitSlash_of_no_slash b hb.2.2.2,
    List.foldl_append, List.foldl_cons, List.foldl_nil, cleanStep_name _ _ _ hb]
  simp

/-- Joining a name to a rooted path adds one element to what the path resolves to. -/
theorem resolve_pathJoin_name (a b : String) (ha : isRooted a.data = true)
    (hb : IsName b.data) : resolve (pathJoin [a, b]) = resolve a ++ [b.data] := by
  have hane : a.data ≠ [] := by
    intro e
    simp [isRooted, e] at ha
  have hfilter : [a, b].filter (fun e => e.data ≠ []) = [a, b] := by
    simp [hane, hb.1]
  have hrooted : isRooted (String.mk (joinSlash ([a, b].map String.data))).data = true := by
    cases hd : a.data with
    | nil => exact absurd hd hane
    | cons x xs =>
      rw [hd] at ha
      simpa [joinSlash, isRooted, hd] using ha
  simp only [pathJoin, hfilter]
  rw [resolve_pathClean _ hrooted]
  simp only [resolve, List.map, joinSlash]
  exact cleanElems_append_name a.data b.data hb

/-- Joining a single rooted path only cleans it. -/
theorem resolve_pathJoin_single (a : String) (ha : isRooted a.data = true) :
    resolve (pathJoin [a]) = resolve a := by
  have hane : a.data ≠ [] := by
    intro e
    simp [isRooted, e] at ha
  have hfilter : [a].filter (fun e => e.data ≠ []) = [a] := by
    simp [hane]
  simp only [pathJoin, hfilter, List.map, joinSlash]
  exact resolve_pathClean _ ha

theorem isName_run : IsName "run".data := by
  refine ⟨by decide, by decide, by decide, by decide⟩

theorem servicePath_rooted (linux : runitRecord) : isRooted linux.servicePath.data = true := by
  simp [runitRecord.servicePath, isRooted, String.data_append]

/-- The run script of a service lies directly below its service directory. -/
theorem resolve_runScript (linux : runitRecord) :
    resolve (pathJoin [linux.servicePath, "run"]) = resolve linux.servicePath ++ ["run".data] :=
  resolve_pathJoin_name _ _ (servicePath_rooted linux) isName_run

/-- The path name `/etc/service/<name>/run` names the run script that `checkInstalled`
looks for. -/
theorem resolve_runScript_literal (linux : runitRecord) :
    resolve ("/etc/service/" ++ linux.name ++ "/run")
      = resolve (pathJoin [linux.servicePath, "run"]) := by
  rw [resolve_runScript]
  have h : ("/etc/service/" ++ linux.name ++ "/run").data
      = linux.servicePath.data ++ '/' :: "run".data := by
    simp [runitRecord.servicePath, String.data_append]
  simp only [resolve, h]
  exact cleanElems_append_name _ _ isName_run

/-! ## Walking a cleaned path -/

theorem pathClean_data (s : String) (h : isRooted s.data = true) :
    (pathClean s).data = '/' :: joinSlash (cleanElems true s.data) := by
  have hne : s.data ≠ [] := by
    intro e
    simp [isRooted, e] at h
  simp [pathClean, hne, h]

theorem pathJoin_name_data (a b : String) (ha : isRooted a.data = true) (hb : IsName b.data) :
    (pathJoin [a, b]).data = '/' :: joinSlash (resolve (pathJoin [a, b])) := by
  have hane : a.data ≠ [] := by
    intro e
    simp [isRooted, e] at ha
  have hfilter : [a, b].filter (fun e => e.data ≠ []) = [a, b] := by
    simp [hane, hb.1]
  have hrooted : isRooted (String.mk (joinSlash ([a, b].map String.data))).data = true := by
    cases hd : a.data with
    | nil => exact absurd hd hane
    | cons x xs =>
      rw [hd] at ha
      simpa [joinSlash, isRooted, hd] using ha
  have hj : pathJoin [a, b] = pathClean (String.mk (joinSlash ([a, b].map String.data))) := by
    simp only [pathJoin, hfilter]
  rw [hj, pathClean_data _ hrooted, resolve_pathClean _ hrooted]
  rfl

/-- Walking down names reaches the place they spell. -/
theorem walk_names (fs : FS) (cur : Path) (comps : List (List Char)) (p : Path)
    (hn : ∀ c ∈ comps, IsName c) (h : walk fs cur comps = .ok p) : p = cur ++ comps := by
  induction comps generalizing cur with
  | nil =>
    simp only [walk, Except.ok.injEq] at h
    simp [h]
  | cons c cs ih =>
    have hc := hn c (by simp)
    simp only [walk] at h
    split at h
    · simp only [hc.1, hc.2.1, hc.2.2.1, or_self, if_false] at h
      rw [ih (cur ++ [c]) (fun x hx => hn x (by simp [hx])) h]
      simp
    · simp at h
    · simp at h

/-- The walk only looks at the places above the one it reaches. -/
theorem walk_agree (fs fs2 : FS) (cur : Path) (comps : List (List Char))
    (hn : ∀ c ∈ comps, IsName c)
    (hagree : ∀ q : Path, q.length < cur.length + comps.length → fs2 q = fs q) :
    walk fs2 cur comps = walk fs cur comps := by
  induction comps generalizing cur with
  | nil => rfl
  | cons c cs ih =>
    have hc := hn c (by simp)
    have hcur : fs2 cur = fs cur := hagree cur (by simp)
    simp only [walk, hcur, hc.1, hc.2.1, hc.2.2.1, or_self, if_false]
    rw [ih (cur ++ [c]) (fun x hx => hn x (by simp [hx]))
      (fun q hq => hagree q (by simp only [List.length_append, List.length_cons,
        List.length_nil] at hq ⊢; omega))]

theorem splitSlash_clean (comps : List (List Char)) (hn : ∀ c ∈ comps, IsName c) :
    splitSlash ('/' :: joinSlash comps) = [] :: (if comps = [] then [[]] else comps) := by
  cases comps with
  | nil => simp [splitSlash, joinSlash]
  | cons a t =>
    have h := splitSlash_joinSlash (a :: t) (by simp) (fun c hc => (hn c hc).2.2.2)
    simp [splitSlash, h]

/-- A cleaned path name leads to the place its elements spell. -/
theorem locate_clean (fs : FS) (comps : List (List Char)) (p : Path)
    (hn : ∀ c ∈ comps, IsName c) (h : locate fs ('/' :: joinSlash comps) = .ok p) :
    p = comps := by
  simp only [locate, List.cons_ne_nil, if_false, splitSlash_clean comps hn] at h
  simp only [walk] at h
  split at h
  · simp only [true_or, if_true] at h
    cases comps with
    | nil =>
      simp only [if_true, walk] at h
      split at h
      · simp only [true_or, if_true, walk, Except.ok.injEq] at h
        exact h.symm
      · simp at h
      · simp at h
    | cons a t =>
      simp only [List.cons_ne_nil, if_false] at h
      simpa using walk_names fs [] (a :: t) p hn h
  · simp at h
  · simp at h

theorem locate_clean_eq (fs : FS) (comps : List (List Char))
    (hn : ∀ c ∈ comps, IsName c) (hne : comps ≠ []) :
    locate fs ('/' :: joinSlash comps) =
      match fs [] with
      | some (.dir _) => walk fs [] comps
      | some (.file _ _) => .error "not a directory"
      | none => .error "no such file or directory" := by
  have hs := splitSlash_clean comps hn
  simp only [hne, if_false] at hs
  unfold locate
  rw [if_neg (List.cons_ne_nil _ _), hs]
  simp [walk]

theorem locate_agree_clean (fs fs2 : FS) (comps : List (List Char))
    (hn : ∀ c ∈ comps, IsName c) (hne : comps ≠ [])
    (hagree : ∀ q : Path, q.length < comps.length → fs2 q = fs q) :
    locate fs2 ('/' :: joinSlash comps) = locate fs ('/' :: joinSlash comps) := by
  have h0 : fs2 [] = fs [] :=
    hagree [] (by cases comps with
      | nil => exact absurd rfl hne
      | cons a t => simp)
  have hw := walk_agree fs fs2 [] comps hn (fun q hq => hagree q (by simpa using hq))
  rw [locate_clean_eq fs2 comps hn hne, locate_clean_eq fs comps hn hne, h0, hw]

/-- The name of the run script as `path.Join` returns it. -/
theorem runScript_data (linux : runitRecord) :
    (pathJoin [linux.servicePath, "run"]).data
      = '/' :: joinSlash (resolve (pathJoin [linux.servicePath, "run"])) :=
  pathJoin_name_data _ _ (servicePath_rooted linux) isName_run

theorem runScript_names (linux : runitRecord) :
    ∀ c ∈ resolve (pathJoin [linux.servicePath, "run"]), IsName c := by
  rw [resolve_runScript]
  intro c hc
  rcases List.mem_append.1 hc with h | h
  · exact cleanElems_rooted_names _ c h
  · simp only [List.mem_singleton] at h
    subst h
    exact isName_run

/-- The name of the run script leads to the place its elements spell, or nowhere. -/
theorem locate_runScript (linux : runitRecord) (fs : FS) (p : Path)
    (h : locate fs (pathJoin [linux.servicePath, "run"]).data = .ok p) :
    p = resolve (pathJoin [linux.servicePath, "run"]) := by
  rw [runScript_data] at h
  exact locate_clean fs _ p (runScript_names linux) h

/-! ## MkdirAll always has fuel enough -/

theorem parentName_length (name : List Char) (h : parentName name ≠ []) :
    (parentName name).length < name.length := by
  have h1 : (parentName name).length + 1 ≤ name.length := by
    unfold parentName dropTrailingSlashes at h ⊢
    have hne : ((name.reverse.dropWhile (· = '/')).reverse.reverse.dropWhile
        (· ≠ '/')).reverse ≠ [] := by
      intro e
      rw [e] at h
      exact h rfl
    have hl := List.length_dropLast
      ((name.reverse.dropWhile (· = '/')).reverse.reverse.dropWhile (· ≠ '/')).reverse
    have hpos := List.length_pos.2 hne
    have ha := (List.dropWhile_sublist (l := (name.reverse.dropWhile (· = '/')).reverse.reverse)
      (· ≠ '/')).length_le
    have hb := (List.dropWhile_sublist (l := name.reverse) (· = '/')).length_le
    simp only [List.length_reverse] at hl hpos ha hb ⊢
    omega
  omega

/-- The result of `os.MkdirAll` does not depend on the fuel, once it exceeds the
length of the name: the recursion always ends by itself. -/
theorem mkdirAllFuel_enough (denied : Path → Option String)
    (fault : FS → Syscall → Option String) (umask perm : Nat) (n m : Nat) (fs : FS)
    (name : List Char) (hn : name.length < n) (hm : name.length < m) :
    mkdirAllFuel denied fault umask perm n fs name
      = mkdirAllFuel denied fault umask perm m fs name := by
  induction n generalizing m fs name with
  | zero => omega
  | succ n ih =>
    cases m with
    | zero => omega
    | succ m =>
      simp only [mkdirAllFuel]
      by_cases hp : parentName name = []
      · simp [hp]
      · have hlen := parentName_length name hp
        rw [ih m fs (parentName name) (by omega) (by omega)]

/-! ## The steps of a successful Install -/

/-- Install returns a nil error only after every step has succeeded. -/
theorem install_ok_steps (linux : runitRecord) (env : Env S) (w : World S)
    (h : (linux.Install env w).1.2 = none) :
    ∃ fs1 fs2 fs3 file execPatch templ,
      env.checkPrivileges = true ∧ linux.checkInstalled w = false ∧
      mkdirAll w.denied env.fault env.umask w.fs linux.servicePath 0o755 = (none, fs1) ∧
      create w.denied env.fault env.umask fs1 (pathJoin [linux.servicePath, "run"]) = .ok (file, fs2) ∧
      env.executablePath linux.name = .ok execPatch ∧
      templateParse runitConfig = .ok templ ∧
      templateExecute env.fault
        [("Name", linux.name), ("Description", linux.description), ("Path", execPatch)]
        file templ fs2 = (none, fs3) ∧
      linux.Install env w =
        (("Install " ++ linux.description ++ ":" ++ env.success, none),
          { w with fs := (chmod env.fault fs3 file 0o755).2 }) := by
  unfold runitRecord.Install at h ⊢
  simp only at h ⊢
  split at h
  · simp at h
  split at h
  · simp at h
  split at h
  · simp at h
  split at h
  · simp at h
  split at h
  · simp at h
  split at h
  · simp at h
  split at h
  · simp at h
  rename_i hp hi _ fs1 h1 _ file fs2 h2 _ execPatch h3 _ templ h4 _ fs3 h5
  refine ⟨fs1, fs2, fs3, file, execPatch, templ, by simpa using hp, by simpa using hi,
    h1, h2, h3, h4, h5, ?_⟩
  simp [hp, hi]

/-! ## File system steps -/

theorem create_ok (denied : Path → Option String) (fault : FS → Syscall → Option String)
    (umask : Nat) (fs fs2 : FS) (name : String) (file : Path)
    (h : create denied fault umask fs name = .ok (file, fs2)) :
    locate fs name.data = .ok file ∧ denied file = none ∧
      ∃ mode, fs2 = fs.set file (.file "" mode) := by
  unfold create at h
  split at h
  · simp at h
  · rename_i p hl
    split at h
    · simp at h
    · rename_i hd
      split at h
      · simp at h
      · split at h
        · simp at h
        · simp only [Except.ok.injEq, Prod.mk.injEq] at h
          obtain ⟨h1, h2⟩ := h
          subst h1
          exact ⟨hl, hd, _, h2.symm⟩
        · simp only [Except.ok.injEq, Prod.mk.injEq] at h
          obtain ⟨h1, h2⟩ := h
          subst h1
          exact ⟨hl, hd, _, h2.symm⟩

theorem write_ok (fault : FS → Syscall → Option String) (fs fs2 : FS) (file : Path)
    (data content : String) (mode : Nat) (h : write fault fs file data = (none, fs2))
    (hf : fs file = some (.file content mode)) :
    fs2 file = some (.file (content ++ data) mode) := by
  unfold write at h
  split at h
  · simp at h
  · rw [hf] at h
    simp only [Prod.mk.injEq, true_and] at h
    subst h
    simp [FS.set]

theorem write_frame (fault : FS → Syscall → Option String) (fs : FS) (file q : Path)
    (data : String) (hq : q ≠ file) : (write fault fs file data).2 q = fs q := by
  unfold write
  split
  · rfl
  · split
    · simp [FS.set, hq]
    · rfl

/-- A successful execution appends the value of every node to the file, in order. -/
theorem templateExecute_ok (fault : FS → Syscall → Option String)
    (data : List (String × String)) (file : Path) (ns : List TNode) (fs fs2 : FS)
    (content : String) (mode : Nat)
    (h : templateExecute fault data file ns fs = (none, fs2))
    (hf : fs file = some (.file content mode)) :
    ∃ outs, List.Forall₂ (fun n o => evalNode data n = .ok o) ns outs ∧
      fs2 file = some (.file (content ++ outs.foldr (· ++ ·) "") mode) := by
  induction ns generalizing fs content with
  | nil =>
    simp only [templateExecute, Prod.mk.injEq, true_and] at h
    subst h
    exact ⟨[], List.Forall₂.nil, by simpa using hf⟩
  | cons n t ih =>
    simp only [templateExecute] at h
    split at h
    · simp at h
    · rename_i out hout
      split at h
      · simp at h
      · rename_i fs1 hw
        obtain ⟨outs, hall, hres⟩ := ih fs1 (content ++ out) h (write_ok _ _ _ _ _ _ _ hw hf)
        refine ⟨out :: outs, List.Forall₂.cons hout hall, ?_⟩
        rw [hres]
        simp [String.append_assoc]

theorem templateExecute_frame (fault : FS → Syscall → Option String)
    (data : List (String × String)) (file q : Path) (ns : List TNode) (fs : FS)
    (hq : q ≠ file) : (templateExecute fault data file ns fs).2 q = fs q := by
  induction ns generalizing fs with
  | nil => rfl
  | cons n t ih =>
    simp only [templateExecute]
    split
    · rfl
    · rename_i out hout
      have hw := write_frame fault fs file q out hq
      split
      · rename_i e fs1 heq
        rw [heq] at hw
        exact hw
      · rename_i fs1 heq
        rw [heq] at hw
        rw [ih fs1]
        exact hw

theorem chmod_file (fault : FS → Syscall → Option String) (fs : FS) (file : Path)
    (content : String) (mode perm : Nat) (hf : fs file = some (.file content mode)) :
    ∃ mode2, (chmod fault fs file perm).2 file = some (.file content mode2) := by
  unfold chmod
  split
  · exact ⟨mode, hf⟩
  · rw [hf]
    exact ⟨perm, by simp [FS.set]⟩

theorem chmod_frame (fault : FS → Syscall → Option String) (fs : FS) (file q : Path)
    (perm : Nat) (hq : q ≠ file) : (chmod fault fs file perm).2 q = fs q := by
  unfold chmod
  split
  · rfl
  · split
    · simp [FS.set, hq]
    · rfl

/-! ## Installed check, Install and Remove -/

theorem checkInstalled_true_iff (linux : runitRecord) (w : World S) :
    linux.checkInstalled w = true ↔
      ∃ n, locate w.fs (pathJoin [linux.servicePath, "run"]).data
          = .ok (resolve (pathJoin [linux.servicePath, "run"])) ∧
        w.denied (resolve (pathJoin [linux.servicePath, "run"])) = none ∧
        w.fs (resolve (pathJoin [linux.servicePath, "run"])) = some n := by
  unfold runitRecord.checkInstalled stat
  cases hl : locate w.fs (pathJoin [linux.servicePath, "run"]).data with
  | error e => simp
  | ok p =>
    have hp := locate_runScript linux w.fs p hl
    subst hp
    simp only [Except.ok.injEq, true_and]
    cases hd : w.denied (resolve (pathJoin [linux.servicePath, "run"])) with
    | some e => simp
    | none =>
      cases hf : w.fs (resolve (pathJoin [linux.servicePath, "run"])) with
      | none => simp
      | some n => simp

/-- A service is installed only if something is at `/etc/service/<name>/run`. -/
theorem checkInstalled_lookup (linux : runitRecord) (w : World S)
    (h : linux.checkInstalled w = true) :
    (w.fs (resolve ("/etc/service/" ++ linux.name ++ "/run"))).isSome = true := by
  obtain ⟨n, -, -, hf⟩ := (checkInstalled_true_iff linux w).1 h
  rw [resolve_runScript_literal, hf]
  rfl

/-- After a successful Install the run script is a regular file that `os.Stat`
finds. -/
theorem install_ok_run_file (linux : runitRecord) (env : Env S) (w : World S)
    (h : (linux.Install env w).1.2 = none) :
    (∃ content mode,
      (linux.Install env w).2.fs (resolve (pathJoin [linux.servicePath, "run"]))
        = some (.file content mode)) ∧
    linux.checkInstalled (linux.Install env w).2 = true := by
  obtain ⟨fs1, fs2, fs3, file, execPatch, templ, -, -, -, h2, -, -, h5, heq⟩ :=
    install_ok_steps linux env w h
  obtain ⟨hloc, hden, mode, hset⟩ := create_ok _ _ _ _ _ _ _ h2
  have hfile := locate_runScript linux fs1 file hloc
  have hf2 : fs2 file = some (.file "" mode) := by rw [hset]; exact if_pos rfl
  obtain ⟨outs, -, hf3⟩ := templateExecute_ok _ _ _ _ _ _ _ _ h5 hf2
  obtain ⟨mode2, hf4⟩ := chmod_file env.fault fs3 file _ _ 0o755 hf3
  have hfinal : (linux.Install env w).2.fs = (chmod env.fault fs3 file 0o755).2 := by
    rw [heq]
  have hden2 : (linux.Install env w).2.denied = w.denied := by rw [heq]
  have hframe : ∀ q : Path, q ≠ file → (chmod env.fault fs3 file 0o755).2 q = fs1 q := by
    intro q hq
    rw [chmod_frame _ _ _ _ _ hq]
    have h3 : fs3 q = fs2 q := by
      have := templateExecute_frame env.fault
        [("Name", linux.name), ("Description", linux.description), ("Path", execPatch)]
        file q templ fs2 hq
      rw [h5] at this
      exact this
    rw [h3, hset]
    simp [FS.set, hq]
  refine ⟨⟨_, mode2, by rw [hfinal, ← hfile]; exact hf4⟩, ?_⟩
  apply (checkInstalled_true_iff linux _).2
  refine ⟨.file ("" ++ outs.foldr (· ++ ·) "") mode2, ?_, ?_, ?_⟩
  · rw [hfinal, runScript_data, ← hfile]
    have hne : file ≠ [] := by
      rw [hfile, resolve_runScript]
      simp
    rw [locate_agree_clean fs1 _ file (hfile ▸ runScript_names linux) hne
      (fun q hq => hframe q (fun e => by rw [e] at hq; exact Nat.lt_irrefl _ hq))]
    rw [hfile, ← runScript_data, ← hfile]
    exact hloc
  · rw [hden2, ← hfile]
    exact hden
  · rw [hfinal, ← hfile]
    exact hf4

/-- After a successful Remove nothing is left at the run script's path. -/
theorem remove_ok_not_installed (linux : runitRecord) (env : Env S) (w : World S)
    (h : (linux.Remove env w).1.2 = none) :
    linux.checkInstalled (linux.Remove env w).2 = false := by
  cases hc : linux.checkInstalled (linux.Remove env w).2 with
  | false => rfl
  | true =>
    exfalso
    obtain ⟨n, -, -, hf⟩ := (checkInstalled_true_iff linux _).1 hc
    revert hf
    unfold runitRecord.Remove at h ⊢
    simp only at h ⊢
    split at h
    · simp at h
    split at h
    · simp at h
    split at h
    · simp at h
    split at h
    · simp at h
    rename_i hp hi _ hstop _ fs2 hrm
    rw [if_neg hp, if_neg hi]
    simp only [hstop, hrm]
    unfold removeAll at hrm
    split at hrm
    · simp at hrm
    · split at hrm
      · simp at hrm
      · simp only [Prod.mk.injEq, true_and] at hrm
        subst hrm
        simp only [resolve_runScript, resolve_pathJoin_single _ (servicePath_rooted linux)]
        simp

/-- C2: if Install returns a nil error then checkInstalled is true in the resulting
state; and if Remove is then run (in any environment) and returns a nil error,
checkInstalled is false in the state after it. -/
theorem install_then_remove (linux : runitRecord) (env env2 : Env S) (w : World S)
    (hinstall : (linux.Install env w).1.2 = none) :
    linux.checkInstalled (linux.Install env w).2 = true ∧
    ((linux.Remove env2 (linux.Install env w).2).1.2 = none →
      linux.checkInstalled (linux.Remove env2 (linux.Install env w).2).2 = false) := by
  exact ⟨(install_ok_run_file linux env w hinstall).2, remove_ok_not_installed linux env2 _⟩

/-- Witness of C2: the service `foo` is installed on the example system and removed. -/
theorem install_then_remove_witness :
    (foo.Install (exampleEnv true none false) (exampleWorld false)).1.2 = none ∧
    (foo.Remove (exampleEnv true none false)
      (foo.Install (exampleEnv true none false) (exampleWorld false)).2).1.2 = none ∧
    foo.checkInstalled (foo.Install (exampleEnv true none false) (exampleWorld false)).2 = true ∧
    foo.checkInstalled (foo.Remove (exampleEnv true none false)
      (foo.Install (exampleEnv true none false) (exampleWorld false)).2).2 = false :=
  ⟨by decide, by decide,
    (install_then_remove foo (exampleEnv true none false) (exampleEnv true none false)
      (exampleWorld false) (by decide)).1,
    (install_then_remove foo (exampleEnv true none false) (exampleEnv true none false)
      (exampleWorld false) (by decide)).2 (by decide)⟩

/-- C3, as the code has it: for a service whose run script `/etc/service/<name>/run`
exists and is found by `os.Stat`, so that checkInstalled reports true, Install returns
a non-nil error and leaves the world, the run script included, as it was; when the
privilege check passes, the error is `<description> already installed` and the message
is `Install <description>:` followed by the failed token. -/
theorem install_already_installed (linux : runitRecord) (env : Env S) (w : World S)
    (hinst : linux.checkInstalled w = true) :
    (w.fs (resolve ("/etc/service/" ++ linux.name ++ "/run"))).isSome = true ∧
    (linux.Install env w).1.2 ≠ none ∧
    (linux.Install env w).2 = w ∧
    (env.checkPrivileges = true →
      (linux.Install env w).1 =
        ("Install " ++ linux.description ++ ":" ++ env.failed,
          some (linux.description ++ " already installed"))) := by
  refine ⟨checkInstalled_lookup linux w hinst, ?_⟩
  unfold runitRecord.Install
  cases hp : env.checkPrivileges <;> simp [hinst]

/-- Witness of C3 as amended: Install of `foo` on the example system where it is
installed. -/
theorem install_already_installed_witness :
    foo.checkInstalled (exampleWorld true) = true ∧
    (foo.Install (exampleEnv true none false) (exampleWorld true)).1.2 ≠ none ∧
    (foo.Install (exampleEnv true none false) (exampleWorld true)).2 = exampleWorld true ∧
    (foo.Install (exampleEnv true none false) (exampleWorld true)).1 =
      ("Install Foo daemon: [FAILED]", some "Foo daemon already installed") :=
  ⟨by decide,
    (install_already_installed foo (exampleEnv true none false) (exampleWorld true)
      (by decide)).2.1,
    (install_already_installed foo (exampleEnv true none false) (exampleWorld true)
      (by decide)).2.2.1,
    (install_already_installed foo (exampleEnv true none false) (exampleWorld true)
      (by decide)).2.2.2 rfl⟩

/-- C3 as stated fails: the run script of `foo` exists, but the process is denied
access to it, `os.Stat` fails and checkInstalled reads the service as not installed;
with the privilege check passing, Install goes on and returns the error of
`os.Create`, not `Foo daemon already installed`. -/
theorem install_existing_script_counterexample :
    lockedWorld.fs (resolve ("/etc/service/" ++ foo.name ++ "/run"))
      = some (.file "#!/bin/sh\nexec foo\n" 0o755) ∧
    stat lockedWorld.denied lockedWorld.fs (pathJoin [foo.servicePath, "run"])
      = .error "stat /etc/service/foo/run: permission denied" ∧
    foo.checkInstalled lockedWorld = false ∧
    (exampleEnv true none false).checkPrivileges = true ∧
    (foo.Install (exampleEnv true none false) lockedWorld).1 =
      ("Install Foo daemon: [FAILED]",
        some "open /etc/service/foo/run: permission denied") ∧
    (foo.Install (exampleEnv true none false) lockedWorld).1 ≠
      ("Install Foo daemon: [FAILED]", some "Foo daemon already installed") := by
  refine ⟨by decide, rfl, by decide, rfl, by decide, by decide⟩

/-! ## The two patterns of `checkRunning` -/

/-- The expression `runRegex` is the pattern `run: ` of the source. -/
theorem runRegex_pattern : runRegex.pattern = "run: ".data := by decide

/-- The expression `pidRegex` is the pattern `pid ([0-9]+)` of the source. -/
theorem pidRegex_pattern : pidRegex.pattern = "pid ([0-9]+)".data := by decide

/-! ## The matcher on literal words -/

theorem word_run_match (c : Char) (cs : List Char) (s : MState)
    (h : (c :: cs) <+: s.rest) :
    (Regex.word c cs).run s = [{ s with rest := s.rest.drop (cs.length + 1) }] := by
  induction cs generalizing c s with
  | nil =>
    obtain ⟨t, ht⟩ := h
    simp only [Regex.word, Regex.run, ← ht]
    simp
  | cons d ds ih =>
    obtain ⟨t, ht⟩ := h
    simp only [Regex.word, Regex.run, ← ht, List.cons_append, if_true, List.flatMap_cons,
      List.flatMap_nil, List.append_nil]
    rw [ih d { s with rest := d :: (ds ++ t) } ⟨t, rfl⟩]
    simp

theorem word_run_mismatch (c : Char) (cs : List Char) (s : MState)
    (h : ¬ (c :: cs) <+: s.rest) : (Regex.word c cs).run s = [] := by
  induction cs generalizing c s with
  | nil =>
    simp only [Regex.word, Regex.run]
    split
    · rename_i x xs hx
      split
      · rename_i hxc
        exact absurd ⟨xs, by simp [hx, hxc]⟩ h
      · rfl
    · rfl
  | cons d ds ih =>
    simp only [Regex.word, Regex.run]
    split
    · rename_i x xs hx
      split
      · rename_i hxc
        simp only [List.flatMap_cons, List.flatMap_nil, List.append_nil]
        apply ih
        intro hp
        apply h
        rw [hx, hxc]
        exact (List.cons_prefix_cons).2 ⟨rfl, hp⟩
      · rfl
    · rfl

/-- Something is found exactly when the expression matches at some suffix. -/
theorem find_isSome_iff (re : Regex) (t : List Char) :
    (re.find t).isSome = true ↔ ∃ u, u <:+ t ∧ re.run { rest := u, caps := [] } ≠ [] := by
  induction t with
  | nil =>
    simp only [Regex.find, List.suffix_nil]
    cases h : re.run { rest := [], caps := [] } <;> simp [h]
  | cons c cs ih =>
    simp only [Regex.find]
    cases h : re.run { rest := c :: cs, caps := [] } with
    | nil =>
      simp only [List.head?_nil, ih]
      constructor
      · rintro ⟨u, hu, hne⟩
        exact ⟨u, hu.trans (List.suffix_cons c cs), hne⟩
      · rintro ⟨u, hu, hne⟩
        rcases List.suffix_cons_iff.1 hu with e | hu2
        · subst e; exact absurd h hne
        · exact ⟨u, hu2, hne⟩
    | cons m ms =>
      simp only [List.head?_cons, Option.isSome_some, true_iff]
      exact ⟨c :: cs, List.suffix_refl _, by simp [h]⟩

/-- The pattern `run: ` matches exactly the strings that contain it. -/
theorem matchString_runRegex (s : String) :
    matchString runRegex s = true ↔ "run: ".data <:+: s.data := by
  unfold matchString
  rw [find_isSome_iff, List.infix_iff_prefix_suffix]
  constructor
  · rintro ⟨u, hu, hne⟩
    refine ⟨u, ?_, hu⟩
    by_contra hnp
    exact hne (word_run_mismatch 'r' ['u', 'n', ':', ' '] _ hnp)
  · rintro ⟨u, hp, hu⟩
    refine ⟨u, hu, ?_⟩
    have := word_run_match 'r' ['u', 'n', ':', ' '] { rest := u, caps := [] } hp
    simp [runRegex, this]

/-! ## The matcher on the pid pattern -/

theorem digit_range_iff (x : Char) :
    ('0'.val ≤ x.val ∧ x.val ≤ '9'.val) ↔ x.isDigit = true := by
  simp [Char.isDigit]

theorem digit_run (s : MState) :
    (Regex.range '0' '9').run s =
      match s.rest with
      | x :: xs => if x.isDigit = true then [{ s with rest := xs }] else []
      | [] => [] := by
  simp only [Regex.run]
  split
  · simp only [digit_range_iff]
  · rfl

theorem dropWhile_of_takeWhile_nil (p : Char → Bool) (l : List Char)
    (h : l.takeWhile p = []) : l.dropWhile p = l := by
  cases l with
  | nil => rfl
  | cons x xs =>
    simp only [List.takeWhile_cons] at h
    split at h
    · simp at h
    · rename_i hx
      simp [List.dropWhile_cons, hx]

/-- Greedy digits: the preferred way to read one or more digits reads them all. -/
theorem plus_digits_head (n : Nat) (s : MState) (hn : s.rest.length < n) :
    (runPlus (Regex.range '0' '9').run n s).head? =
      if s.rest.takeWhile Char.isDigit = [] then none
      else some { s with rest := s.rest.dropWhile Char.isDigit } := by
  induction n generalizing s with
  | zero => omega
  | succ n ih =>
    simp only [runPlus, digit_run]
    cases hr : s.rest with
    | nil => simp
    | cons x xs =>
      simp only
      by_cases hx : x.isDigit = true
      · have hlen : ({ s with rest := xs } : MState).rest.length < n := by
          simp only [hr, List.length_cons] at hn
          simpa using Nat.lt_of_succ_lt_succ hn
        have := ih { s with rest := xs } hlen
        simp only [hx, if_true, List.flatMap_cons, List.flatMap_nil, List.append_nil,
          List.head?_append, this, List.takeWhile_cons, List.dropWhile_cons]
        by_cases ht : xs.takeWhile Char.isDigit = []
        · simp [ht, dropWhile_of_takeWhile_nil _ _ ht]
        · simp [ht]
      · simp [hx, List.takeWhile_cons]

theorem take_length_sub_dropWhile (p : Char → Bool) (l : List Char) :
    l.take (l.length - (l.dropWhile p).length) = l.takeWhile p := by
  have h := List.takeWhile_append_dropWhile p l
  have hlen : l.length - (l.dropWhile p).length = (l.takeWhile p).length := by
    have := congrArg List.length h
    simp only [List.length_append] at this
    omega
  rw [hlen]
  have ht := @List.take_left' _ (l.takeWhile p) (l.dropWhile p) _ rfl
  rwa [h] at ht

theorem run_seq (a b : Regex) (s : MState) :
    (Regex.seq a b).run s = (a.run s).flatMap (fun s1 => b.run s1) := rfl

theorem run_group_plus (i : Nat) (a : Regex) (s : MState) :
    (Regex.group i (.plus a)).run s =
      (runPlus a.run (s.rest.length + 1) s).map (fun s1 =>
        { s1 with caps := (i, s.rest.take (s.rest.length - s1.rest.length)) :: s1.caps }) := rfl

/-- The preferred match of the pid pattern at the start of a text. -/
theorem pidRegex_run_head (u : List Char) :
    (pidRegex.run { rest := u, caps := [] }).head? =
      (pidAt u).map (fun n =>
        { rest := (u.drop 4).dropWhile Char.isDigit, caps := [(1, n)] }) := by
  unfold pidRegex pidAt
  by_cases hp : "pid ".data <+: u
  · have hw := word_run_match 'p' ['i', 'd', ' '] { rest := u, caps := [] } hp
    rw [run_seq, hw]
    simp only [List.flatMap_cons, List.flatMap_nil, List.append_nil, run_group_plus,
      List.head?_map, List.length_cons, List.length_nil]
    rw [plus_digits_head _ _ (by simp)]
    by_cases ht : (u.drop 4).takeWhile Char.isDigit = []
    · simp [ht]
    · have htk := take_length_sub_dropWhile Char.isDigit (u.drop 4)
      simp only [List.length_drop] at htk
      simp [ht, hp, htk]
  · have hw := word_run_mismatch 'p' ['i', 'd', ' '] { rest := u, caps := [] } hp
    rw [run_seq, hw]
    simp [hp]

/-- The leftmost match of the pid pattern captures what `leftmostPid` describes. -/
theorem find_pidRegex (u : List Char) :
    (pidRegex.find u = none ∧ leftmostPid u = none) ∨
    (∃ whole n, pidRegex.find u = some (whole, [(1, n)]) ∧ leftmostPid u = some n) := by
  induction u with
  | nil =>
    left
    have := pidRegex_run_head []
    simp only [pidAt] at this
    simp [Regex.find, leftmostPid, this]
  | cons c cs ih =>
    have hh := pidRegex_run_head (c :: cs)
    simp only [Regex.find, leftmostPid, hh]
    cases hpa : pidAt (c :: cs) with
    | none => simpa using ih
    | some n =>
      right
      simp only [Option.map_some']
      exact ⟨_, n, rfl, rfl⟩

/-! ## The pid in the words of the specification -/

theorem takeWhile_digits_append (n rest : List Char) (hn : ∀ c ∈ n, c.isDigit = true)
    (hrest : ∀ c, rest.head? = some c → c.isDigit = false) :
    (n ++ rest).takeWhile Char.isDigit = n := by
  induction n with
  | nil =>
    cases rest with
    | nil => rfl
    | cons c cs => simp [List.takeWhile_cons, hrest c (by simp)]
  | cons x xs ih =>
    simp only [List.cons_append, List.takeWhile_cons, hn x (by simp), if_true]
    rw [ih (fun c hc => hn c (by simp [hc]))]

theorem pidAt_of_run (n rest : List Char) (hne : n ≠ []) (hn : ∀ c ∈ n, c.isDigit = true)
    (hrest : ∀ c, rest.head? = some c → c.isDigit = false) :
    pidAt ("pid ".data ++ n ++ rest) = some n := by
  have hp : "pid ".data <+: "pid ".data ++ n ++ rest := by
    rw [List.append_assoc]; exact List.prefix_append _ _
  have hd : ("pid ".data ++ n ++ rest).drop 4 = n ++ rest := by
    rw [List.append_assoc]; rfl
  simp only [pidAt, hd, takeWhile_digits_append n rest hn hrest]
  simp [hp, hne]

theorem pidAt_isSome_iff (u : List Char) :
    (pidAt u).isSome = true ↔ PidOccursAt u [] := by
  unfold pidAt PidOccursAt
  constructor
  · intro h
    split at h
    · rename_i hc
      obtain ⟨⟨t, ht⟩, hne⟩ := hc
      subst ht
      have hd : ("pid ".data ++ t).drop 4 = t := rfl
      rw [hd] at hne
      cases t with
      | nil => simp at hne
      | cons d rest =>
        refine ⟨d, rest, by simp, ?_⟩
        by_contra hd2
        simp [List.takeWhile_cons, hd2] at hne
    · simp at h
  · rintro ⟨d, rest, hu, hd⟩
    subst hu
    have hp : "pid ".data <+: [] ++ "pid ".data ++ d :: rest := by
      simp only [List.nil_append]; exact List.prefix_append _ _
    have hdr : ([] ++ "pid ".data ++ d :: rest).drop 4 = d :: rest := rfl
    simp [hp, hdr, List.takeWhile_cons, hd]

theorem pidOccursAt_cons (c : Char) (out pre : List Char) :
    PidOccursAt (c :: out) (c :: pre) ↔ PidOccursAt out pre := by
  simp [PidOccursAt]

theorem pidOccursAt_cons_elim (c : Char) (out pre : List Char)
    (h : PidOccursAt (c :: out) pre) :
    pre = [] ∨ ∃ pre2, pre = c :: pre2 ∧ PidOccursAt out pre2 := by
  cases pre with
  | nil => exact Or.inl rfl
  | cons x xs =>
    right
    obtain ⟨d, rest, he, hd⟩ := h
    simp only [List.cons_append, List.cons.injEq] at he
    obtain ⟨hx, he2⟩ := he
    subst hx
    exact ⟨xs, rfl, d, rest, by simpa using he2, hd⟩

/-- No occurrence of `pid ` before a digit: nothing is extracted. -/
theorem leftmostPid_eq_none_iff (out : List Char) :
    leftmostPid out = none ↔ ∀ pre, ¬ PidOccursAt out pre := by
  induction out with
  | nil =>
    simp only [leftmostPid, true_iff]
    rintro pre ⟨d, rest, he, -⟩
    have := congrArg List.length he
    simp at this
    omega
  | cons c cs ih =>
    simp only [leftmostPid]
    cases hpa : pidAt (c :: cs) with
    | none =>
      simp only [ih]
      constructor
      · intro h pre hocc
        rcases pidOccursAt_cons_elim c cs pre hocc with e | ⟨pre2, -, h2⟩
        · subst e
          have := (pidAt_isSome_iff (c :: cs)).2 hocc
          simp [hpa] at this
        · exact h pre2 h2
      · intro h pre hocc
        exact h (c :: pre) ((pidOccursAt_cons c cs pre).2 hocc)
    | some n =>
      simp only [false_iff, not_forall, not_not, reduceCtorEq]
      exact ⟨[], (pidAt_isSome_iff (c :: cs)).1 (by simp [hpa])⟩

/-- The leftmost occurrence decides what is extracted: its maximal run of digits. -/
theorem leftmostPid_of_leftmost (out pre n : List Char) (hrun : IsPidRun out pre n)
    (hleft : ∀ pre2, PidOccursAt out pre2 → pre.length ≤ pre2.length) :
    leftmostPid out = some n := by
  induction pre generalizing out with
  | nil =>
    obtain ⟨rest, he, hne, hn, hrest⟩ := hrun
    have hpa := pidAt_of_run n rest hne hn hrest
    simp only [List.nil_append] at he
    rw [← he] at hpa
    cases out with
    | nil => simp [pidAt] at hpa
    | cons c cs => simp [leftmostPid, hpa]
  | cons x xs ih =>
    obtain ⟨rest, he, hne, hn, hrest⟩ := hrun
    subst he
    simp only [List.cons_append, leftmostPid]
    cases hpa : pidAt (x :: (xs ++ "pid ".data ++ n ++ rest)) with
    | some m =>
      have hocc := (pidAt_isSome_iff (x :: (xs ++ "pid ".data ++ n ++ rest))).1
        (by rw [hpa]; rfl)
      have := hleft [] hocc
      simp at this
    | none =>
      simp only
      apply ih
      · exact ⟨rest, rfl, hne, hn, hrest⟩
      · intro pre2 hocc
        have := hleft (x :: pre2) (by simpa [pidOccursAt_cons] using hocc)
        simpa using this

/-! ## The running check -/

theorem findStringSubmatch_pidRegex (s : String) :
    (leftmostPid s.data = none ∧ findStringSubmatch pidRegex s = []) ∨
    (∃ whole n, leftmostPid s.data = some n ∧
      findStringSubmatch pidRegex s = [whole, String.mk n]) := by
  have hg : pidRegex.numGroups = 1 := rfl
  rcases find_pidRegex s.data with ⟨hf, hl⟩ | ⟨whole, n, hf, hl⟩
  · left
    simp [findStringSubmatch, hf, hl]
  · right
    refine ⟨String.mk whole, n, hl, ?_⟩
    have hr : List.range 1 = [0] := rfl
    simp [findStringSubmatch, hf, hg, capture, hr]

/-- The running check starts `sv status` and changes nothing else. -/
theorem checkRunning_world (linux : runitRecord) (env : Env S) (w : World S) :
    (linux.checkRunning env w).2 =
      { w with issued := w.issued ++ [["sv", "status", linux.name]] } := by
  unfold runitRecord.checkRunning
  simp only
  split
  · split
    · split <;> rfl
    · rfl
  · rfl

theorem checkRunning_of_error (linux : runitRecord) (env : Env S) (w : World S) (e : String)
    (h : env.svStatus w.fs w.sup linux.name = .error e) :
    (linux.checkRunning env w).1 = ("Service is stoped", false) := by
  unfold runitRecord.checkRunning
  simp [h]

theorem checkRunning_of_no_run (linux : runitRecord) (env : Env S) (w : World S)
    (out : String) (h : env.svStatus w.fs w.sup linux.name = .ok out)
    (hno : ¬ "run: ".data <:+: out.data) :
    (linux.checkRunning env w).1 = ("Service is stoped", false) := by
  have hm : matchString runRegex out = false := by
    cases hb : matchString runRegex out with
    | false => rfl
    | true => exact absurd ((matchString_runRegex out).1 hb) hno
  unfold runitRecord.checkRunning
  simp [h, hm]

theorem checkRunning_of_run (linux : runitRecord) (env : Env S) (w : World S)
    (out : String) (h : env.svStatus w.fs w.sup linux.name = .ok out)
    (hrun : "run: ".data <:+: out.data) :
    (linux.checkRunning env w).1 =
      match leftmostPid out.data with
      | some n => ("Service (pid  " ++ String.mk n ++ ") is running...", true)
      | none => ("Service is running...", true) := by
  have hm : matchString runRegex out = true := (matchString_runRegex out).2 hrun
  unfold runitRecord.checkRunning
  rcases findStringSubmatch_pidRegex out with ⟨hl, hf⟩ | ⟨whole, n, hl, hf⟩
  · simp [h, hm, hl, hf]
  · simp [h, hm, hl, hf]

/-- The running check reports false exactly when `sv status` fails or its output
does not contain `run: `. -/
theorem checkRunning_false_iff (linux : runitRecord) (env : Env S) (w : World S) :
    (linux.checkRunning env w).1.2 = false ↔
      ((∃ e, env.svStatus w.fs w.sup linux.name = .error e) ∨
        ∃ out, env.svStatus w.fs w.sup linux.name = .ok out ∧ ¬ "run: ".data <:+: out.data) := by
  cases h : env.svStatus w.fs w.sup linux.name with
  | error e =>
    simp [checkRunning_of_error linux env w e h]
  | ok out =>
    by_cases hrun : "run: ".data <:+: out.data
    · have := checkRunning_of_run linux env w out h hrun
      cases hl : leftmostPid out.data <;> simp [this, hl, hrun]
    · simp [checkRunning_of_no_run linux env w out h hrun, hrun]

/-! ## Start and Stop guards -/

/-- C4: with the privilege check passing, Start on a service whose run script does not
exist returns `<description> is not installed` and leaves the world as it was; Start
on an installed service that the running check reports as running returns
`service already running`, and the only subprocess started is the `sv status` of the
running check: no `sv start` is issued, the file system and the supervisor are
unchanged. -/
theorem start_rejected (linux : runitRecord) (env : Env S) (w : World S)
    (hpriv : env.checkPrivileges = true) :
    (w.fs (resolve ("/etc/service/" ++ linux.name ++ "/run")) = none →
      linux.Start env w =
        (("Starting " ++ linux.description ++ ":" ++ env.failed,
          some (linux.description ++ " is not installed")), w)) ∧
    (linux.checkInstalled w = true → (linux.checkRunning env w).1.2 = true →
      linux.Start env w =
        (("Starting " ++ linux.description ++ ":" ++ env.failed,
          some "service already running"),
          { w with issued := w.issued ++ [["sv", "status", linux.name]] })) := by
  constructor
  · intro hnone
    have hi : linux.checkInstalled w = false := by
      cases hc : linux.checkInstalled w with
      | false => rfl
      | true =>
        have := checkInstalled_lookup linux w hc
        rw [hnone] at this
        exact absurd this (by simp)
    simp [runitRecord.Start, hpriv, hi]
  · intro hi hr
    have hw := checkRunning_world linux env w
    unfold runitRecord.Start
    simp only [hpriv, hi]
    generalize linux.checkRunning env w = r at hr hw
    obtain ⟨⟨text, status⟩, w1⟩ := r
    simp only at hr hw
    subst hr hw
    simp

/-- Witness of C4: `foo` is not installed in one world; in the other it is installed
and `sv status` reports it running. -/
theorem start_rejected_witness :
    (exampleWorld false).fs (resolve ("/etc/service/" ++ foo.name ++ "/run")) = none ∧
    foo.Start (exampleEnv true none false) (exampleWorld false) =
      (("Starting Foo daemon: [FAILED]", some "Foo daemon is not installed"),
        exampleWorld false) ∧
    foo.checkInstalled (exampleWorld true) = true ∧
    (foo.checkRunning (exampleEnv true (some "run: foo: (pid 77) 3s") false)
      (exampleWorld true)).1.2 = true ∧
    foo.Start (exampleEnv true (some "run: foo: (pid 77) 3s") false) (exampleWorld true) =
      (("Starting Foo daemon: [FAILED]", some "service already running"),
        { exampleWorld true with issued := [["sv", "status", "foo"]] }) :=
  ⟨by decide,
    (start_rejected foo (exampleEnv true none false) (exampleWorld false) rfl).1 (by decide),
    by decide, by decide,
    (start_rejected foo (exampleEnv true (some "run: foo: (pid 77) 3s") false)
      (exampleWorld true) rfl).2 (by decide) (by decide)⟩

/-- C5: with the privilege check passing and the service installed, when `sv status`
fails or its output has no match of `run: `, Stop returns `service already stopped`
with the message `Stopping <description>:` and the failed token; the only subprocess
started is `sv status`, so no `sv stop` is issued, and the error of the status
invocation is not what is returned. -/
theorem stop_already_stopped (linux : runitRecord) (env : Env S) (w : World S)
    (hpriv : env.checkPrivileges = true) (hinst : linux.checkInstalled w = true)
    (hstopped : (∃ e, env.svStatus w.fs w.sup linux.name = .error e) ∨
      ∃ out, env.svStatus w.fs w.sup linux.name = .ok out ∧ ¬ "run: ".data <:+: out.data) :
    linux.Stop env w =
      (("Stopping " ++ linux.description ++ ":" ++ env.failed, some "service already stopped"),
        { w with issued := w.issued ++ [["sv", "status", linux.name]] }) := by
  have hr := (checkRunning_false_iff linux env w).2 hstopped
  have hw := checkRunning_world linux env w
  unfold runitRecord.Stop
  simp only [hpriv, hinst]
  generalize linux.checkRunning env w = r at hr hw
  obtain ⟨⟨text, status⟩, w1⟩ := r
  simp only at hr hw
  subst hr hw
  simp

/-- Witness of C5: `sv status` fails for the installed service `foo`. -/
theorem stop_already_stopped_witness :
    (exampleEnv true none false).checkPrivileges = true ∧
    foo.checkInstalled (exampleWorld true) = true ∧
    (exampleEnv true none false).svStatus (exampleWorld true).fs (exampleWorld true).sup
      foo.name = .error "unable to open supervise/ok for foo" ∧
    foo.Stop (exampleEnv true none false) (exampleWorld true) =
      (("Stopping Foo daemon: [FAILED]", some "service already stopped"),
        { exampleWorld true with issued := [["sv", "status", "foo"]] }) :=
  ⟨rfl, by decide, rfl,
    stop_already_stopped foo (exampleEnv true none false) (exampleWorld true) rfl (by decide)
      (Or.inl ⟨_, rfl⟩)⟩

/-! ## Status text -/

theorem pidOccursAt_drop (out pre : List Char) (h : PidOccursAt out pre) :
    (pidAt (out.drop pre.length)).isSome = true := by
  obtain ⟨d, rest, he, hd⟩ := h
  apply (pidAt_isSome_iff _).2
  refine ⟨d, rest, ?_, hd⟩
  rw [he, List.append_assoc, List.drop_left]
  rfl

/-- C6: for a successful `sv status` whose output begins with `run: `: when `pid `
followed by a digit occurs in the output, checkRunning returns
`Service (pid  N) is running...` and true, where N is the maximal run of digits of the
leftmost such occurrence; when it does not occur, checkRunning returns
`Service is running...` and true. -/
theorem checkRunning_running_text (linux : runitRecord) (env : Env S) (w : World S)
    (out : String) (hstatus : env.svStatus w.fs w.sup linux.name = .ok out)
    (hrun : "run: ".data <+: out.data) :
    (∀ pre n, IsPidRun out.data pre n →
      (∀ pre2, PidOccursAt out.data pre2 → pre.length ≤ pre2.length) →
      (linux.checkRunning env w).1 =
        ("Service (pid  " ++ String.mk n ++ ") is running...", true)) ∧
    ((∀ pre, ¬ PidOccursAt out.data pre) →
      (linux.checkRunning env w).1 = ("Service is running...", true)) := by
  have h := checkRunning_of_run linux env w out hstatus hrun.isInfix
  constructor
  · intro pre n hn hleft
    rw [h, leftmostPid_of_leftmost out.data pre n hn hleft]
  · intro hno
    rw [h, (leftmostPid_eq_none_iff out.data).2 hno]

/-- Witness of C6: the two status lines of the specification. -/
theorem checkRunning_running_text_witness :
    "run: ".data <+: "run: myservice: (pid 1234) 10s".data ∧
    (foo.checkRunning (exampleEnv true (some "run: myservice: (pid 1234) 10s") false)
      (exampleWorld true)).1 = ("Service (pid  1234) is running...", true) ∧
    "run: ".data <+: "run: myservice: 10s".data ∧
    (foo.checkRunning (exampleEnv true (some "run: myservice: 10s") false)
      (exampleWorld true)).1 = ("Service is running...", true) := by
  refine ⟨by decide, ?_, by decide, ?_⟩
  · refine (checkRunning_running_text foo
      (exampleEnv true (some "run: myservice: (pid 1234) 10s") false) (exampleWorld true)
      "run: myservice: (pid 1234) 10s" rfl (by decide)).1
      "run: myservice: (".data "1234".data ⟨") 10s".data, by decide, by decide, by decide,
        by decide⟩ ?_
    intro pre2 hocc
    by_contra hlt
    have hsome := pidOccursAt_drop _ _ hocc
    have hall : ∀ k < 17, pidAt ("run: myservice: (pid 1234) 10s".data.drop k) = none := by
      decide
    rw [hall pre2.length (by simpa using hlt)] at hsome
    simp at hsome
  · exact (checkRunning_running_text foo
      (exampleEnv true (some "run: myservice: 10s") false) (exampleWorld true)
      "run: myservice: 10s" rfl (by decide)).2
      ((leftmostPid_eq_none_iff _).1 (by decide))

/-- C7 fails on the code: for the status line of a service that is down while its log
service runs, which does not begin with `run: `, checkRunning answers
`Service (pid  124) is running...` and true, with the pid of the log service, and
Start of the installed service refuses with `service already running`. -/
theorem checkRunning_prefix_counterexample :
    ¬ "run: ".data <+: "down: foo: 1s, normally up; run: log: (pid 124) 10s".data ∧
    (foo.checkRunning
      (exampleEnv true (some "down: foo: 1s, normally up; run: log: (pid 124) 10s") false)
      (exampleWorld true)).1 = ("Service (pid  124) is running...", true) ∧
    (foo.checkRunning
      (exampleEnv true (some "down: foo: 1s, normally up; run: log: (pid 124) 10s") false)
      (exampleWorld true)).1 ≠ ("Service is stoped", false) ∧
    (foo.Start
      (exampleEnv true (some "down: foo: 1s, normally up; run: log: (pid 124) 10s") false)
      (exampleWorld true)).1 = ("Starting Foo daemon: [FAILED]", some "service already running") := by
  refine ⟨by decide, by decide, by decide, by decide⟩

/-! ## Remove -/

/-- C8: with the privilege check passing and the service installed, Remove starts
`sv stop <name>` and no other subprocess, whether or not the service is running, and
the supervisor is as that command leaves it; if the command fails Remove returns its
error and the file system is as it was; Remove returns a nil error exactly when both
the stop command and the recursive deletion of the service directory succeed, and
then the message ends in the success token, nothing is left at or below
`/etc/service/<name>`, and the rest of the file system is as it was. -/
theorem remove_installed (linux : runitRecord) (env : Env S) (w : World S)
    (hpriv : env.checkPrivileges = true) (hinst : linux.checkInstalled w = true) :
    (linux.Remove env w).2.issued = w.issued ++ [["sv", "stop", linux.name]] ∧
    (linux.Remove env w).2.sup = (env.svStop w.fs w.sup linux.name).2 ∧
    (∀ e, (env.svStop w.fs w.sup linux.name).1 = some e →
      (linux.Remove env w).1 = ("Removing " ++ linux.description ++ ":" ++ env.failed, some e) ∧
      (linux.Remove env w).2.fs = w.fs) ∧
    ((linux.Remove env w).1.2 = none ↔
      ((env.svStop w.fs w.sup linux.name).1 = none ∧
        (removeAll env.removeFault w.fs (pathJoin [linux.servicePath])).1 = none)) ∧
    ((linux.Remove env w).1.2 = none →
      (linux.Remove env w).1.1 = "Removing " ++ linux.description ++ ":" ++ env.success ∧
      ∀ q : Path, (linux.Remove env w).2.fs q =
        if resolve ("/etc/service/" ++ linux.name) <+: q then none else w.fs q) := by
  have hres : resolve (pathJoin [linux.servicePath]) = resolve ("/etc/service/" ++ linux.name) :=
    resolve_pathJoin_single _ (servicePath_rooted linux)
  unfold runitRecord.Remove
  simp only [hpriv, hinst]
  cases hs : (env.svStop w.fs w.sup linux.name).1 with
  | some e => simp
  | none =>
    cases hr : removeAll env.removeFault w.fs (pathJoin [linux.servicePath]) with
    | mk err fs2 =>
      cases err with
      | some e => simp
      | none =>
        have hfs : ∀ q : Path, fs2 q =
            if resolve ("/etc/service/" ++ linux.name) <+: q then none else w.fs q := by
          intro q
          unfold removeAll at hr
          split at hr
          · simp at hr
          · split at hr
            · simp at hr
            · simp only [Prod.mk.injEq, true_and] at hr
              rw [← hr, hres]
        simpa using hfs

/-- Witness of C8: Remove of the installed service `foo`, once with a working `sv stop`,
after which the run script and the service directory are gone and `/etc/service` is
still there, and once with a failing one. -/
theorem remove_installed_witness :
    (exampleEnv true none false).checkPrivileges = true ∧
    foo.checkInstalled (exampleWorld true) = true ∧
    (foo.Remove (exampleEnv true none false) (exampleWorld true)).2.issued
      = [["sv", "stop", "foo"]] ∧
    (foo.Remove (exampleEnv true none false) (exampleWorld true)).1
      = ("Removing Foo daemon: [ OK ]", none) ∧
    (foo.Remove (exampleEnv true none false) (exampleWorld true)).2.fs
      (resolve "/etc/service/foo/run") = none ∧
    (foo.Remove (exampleEnv true none false) (exampleWorld true)).2.fs
      (resolve "/etc/service/foo") = none ∧
    (foo.Remove (exampleEnv true none false) (exampleWorld true)).2.fs
      (resolve "/etc/service") = some (.dir 0o755) ∧
    (foo.Remove (exampleEnv true none true) (exampleWorld true)).1
      = ("Removing Foo daemon: [FAILED]", some "exit status 1") ∧
    (foo.Remove (exampleEnv true none true) (exampleWorld true)).2.fs = (exampleWorld true).fs :=
  ⟨rfl, by decide,
    (remove_installed foo (exampleEnv true none false) (exampleWorld true) rfl (by decide)).1,
    by decide,
    (((remove_installed foo (exampleEnv true none false) (exampleWorld true) rfl
      (by decide)).2.2.2.2 (by decide)).2 (resolve "/etc/service/foo/run")).trans
      (if_pos (by decide)),
    (((remove_installed foo (exampleEnv true none false) (exampleWorld true) rfl
      (by decide)).2.2.2.2 (by decide)).2 (resolve "/etc/service/foo")).trans
      (if_pos (by decide)),
    (((remove_installed foo (exampleEnv true none false) (exampleWorld true) rfl
      (by decide)).2.2.2.2 (by decide)).2 (resolve "/etc/service")).trans
      ((if_neg (by decide)).trans (by decide)),
    ((remove_installed foo (exampleEnv true none true) (exampleWorld true) rfl
      (by decide)).2.2.1 "exit status 1" rfl).1,
    ((remove_installed foo (exampleEnv true none true) (exampleWorld true) rfl
      (by decide)).2.2.1 "exit status 1" rfl).2⟩

/-! ## The run script -/

theorem templateParse_runitConfig :
    templateParse runitConfig = .ok
      [.text "#!/bin/bash\n#".data, .field "Description".data, .text "\n\nexec ".data,
        .field "Path".data, .text " >>/var/log/".data, .field "Name".data,
        .text ".log 2>&1\n".data] := by
  rfl

/-- C9: the run script that a successful Install leaves at `/etc/service/<name>/run` is
the template with the description, the resolved executable path and the name put in
as they are, for all strings. -/
theorem install_run_script (linux : runitRecord) (env : Env S) (w : World S) (path : String)
    (hpath : env.executablePath linux.name = .ok path)
    (hinstall : (linux.Install env w).1.2 = none) :
    ∃ mode, (linux.Install env w).2.fs (resolve ("/etc/service/" ++ linux.name ++ "/run")) =
      some (.file ("#!/bin/bash\n#" ++ linux.description ++ "\n\nexec " ++ path
        ++ " >>/var/log/" ++ linux.name ++ ".log 2>&1\n") mode) := by
  obtain ⟨fs1, fs2, fs3, file, execPatch, templ, -, -, -, h2, h3, h4, h5, heq⟩ :=
    install_ok_steps linux env w hinstall
  rw [hpath] at h3
  rw [templateParse_runitConfig] at h4
  simp only [Except.ok.injEq] at h3 h4
  subst h3 h4
  obtain ⟨hloc, -, mode, hset⟩ := create_ok _ _ _ _ _ _ _ h2
  have hfile := locate_runScript linux fs1 file hloc
  have hf2 : fs2 file = some (.file "" mode) := by rw [hset]; exact if_pos rfl
  obtain ⟨outs, hall, hf3⟩ := templateExecute_ok _ _ _ _ _ _ _ _ h5 hf2
  obtain ⟨mode2, hf4⟩ := chmod_file env.fault fs3 file _ _ 0o755 hf3
  refine ⟨mode2, ?_⟩
  rw [heq, resolve_runScript_literal, ← hfile]
  simp only [hf4]
  have e1 : ∀ o, evalNode [("Name", linux.name), ("Description", linux.description),
      ("Path", path)] (.field "Description".data) = .ok o → linux.description = o :=
    fun o h => Except.ok.inj h
  have e2 : ∀ o, evalNode [("Name", linux.name), ("Description", linux.description),
      ("Path", path)] (.field "Path".data) = .ok o → path = o :=
    fun o h => Except.ok.inj h
  have e3 : ∀ o, evalNode [("Name", linux.name), ("Description", linux.description),
      ("Path", path)] (.field "Name".data) = .ok o → linux.name = o :=
    fun o h => Except.ok.inj h
  have e4 : ∀ t o, evalNode [("Name", linux.name), ("Description", linux.description),
      ("Path", path)] (.text t) = .ok o → String.mk t = o :=
    fun t o h => Except.ok.inj h
  simp only [List.forall₂_cons_left_iff, List.forall₂_nil_left_iff] at hall
  obtain ⟨o1, _, g1, ⟨o2, _, g2, ⟨o3, _, g3, ⟨o4, _, g4, ⟨o5, _, g5, ⟨o6, _, g6,
    ⟨o7, _, g7, rfl, rfl⟩, rfl⟩, rfl⟩, rfl⟩, rfl⟩, rfl⟩, rfl⟩ := hall
  rw [← e4 _ _ g1, ← e1 _ g2, ← e4 _ _ g3, ← e2 _ g4, ← e4 _ _ g5, ← e3 _ g6, ← e4 _ _ g7]
  simp only [List.foldr, String.append_assoc]
  rfl

/-- Witness of C9: the run script of `foo` with description `Foo daemon` and
executable `/usr/bin/foo`. -/
theorem install_run_script_witness :
    (exampleEnv true none false).executablePath foo.name = .ok "/usr/bin/foo" ∧
    (foo.Install (exampleEnv true none false) (exampleWorld false)).1.2 = none ∧
    ∃ mode, (foo.Install (exampleEnv true none false) (exampleWorld false)).2.fs
        (resolve "/etc/service/foo/run") =
      some (.file "#!/bin/bash\n#Foo daemon\n\nexec /usr/bin/foo >>/var/log/foo.log 2>&1\n"
        mode) :=
  ⟨rfl, by decide,
    install_run_script foo (exampleEnv true none false) (exampleWorld false) "/usr/bin/foo" rfl
      (by decide)⟩

/-! ## Failing steps of Install -/

/-- With the privilege check passing and the service not installed, a failure of any
step that Install checks is returned with the failed token, and the file system is
left as the earlier steps made it. -/
theorem install_checked_step_failure (linux : runitRecord) (env : Env S) (w : World S)
    (hpriv : env.checkPrivileges = true) (hinst : linux.checkInstalled w = false) :
    (∀ e fs1, mkdirAll w.denied env.fault env.umask w.fs linux.servicePath 0o755 = (some e, fs1) →
      linux.Install env w =
        (("Install " ++ linux.description ++ ":" ++ env.failed, some e), { w with fs := fs1 })) ∧
    (∀ fs1, mkdirAll w.denied env.fault env.umask w.fs linux.servicePath 0o755 = (none, fs1) →
      (∀ e, create w.denied env.fault env.umask fs1 (pathJoin [linux.servicePath, "run"]) = .error e →
        linux.Install env w =
          (("Install " ++ linux.description ++ ":" ++ env.failed, some e),
            { w with fs := fs1 })) ∧
      (∀ file fs2,
        create w.denied env.fault env.umask fs1 (pathJoin [linux.servicePath, "run"]) = .ok (file, fs2) →
        (∀ e, env.executablePath linux.name = .error e →
          linux.Install env w =
            (("Install " ++ linux.description ++ ":" ++ env.failed, some e),
              { w with fs := fs2 })) ∧
        (∀ execPatch e fs3 templ, env.executablePath linux.name = .ok execPatch →
          templateParse runitConfig = .ok templ →
          templateExecute env.fault
            [("Name", linux.name), ("Description", linux.description), ("Path", execPatch)]
            file templ fs2 = (some e, fs3) →
          linux.Install env w =
            (("Install " ++ linux.description ++ ":" ++ env.failed, some e),
              { w with fs := fs3 })))) := by
  unfold runitRecord.Install
  simp only [hpriv, hinst]
  refine ⟨fun e fs1 h1 => by simp [h1], fun fs1 h1 => ⟨fun e h2 => by simp [h1, h2],
    fun file fs2 h2 => ⟨fun e h3 => by simp [h1, h2, h3],
      fun execPatch e fs3 templ h3 h4 h5 => by simp [h1, h2, h3, h4, h5]⟩⟩⟩

/-! ## The unchecked mode change -/

/-- C10 fails on the mode change: on a system where changing the mode of the run file
fails while every other step succeeds, Install returns the success token and a nil
error, and the run script keeps the mode it was created with. -/
theorem install_chmod_failure_ignored :
    (chmod noChmodEnv.fault (foo.Install noChmodEnv (exampleWorld false)).2.fs
      (resolve "/etc/service/foo/run") 0o755).1
      = some "chmod /etc/service/foo/run: operation not permitted" ∧
    (foo.Install noChmodEnv (exampleWorld false)).1 = ("Install Foo daemon: [ OK ]", none) ∧
    (foo.Install noChmodEnv (exampleWorld false)).2.fs (resolve "/etc/service/foo/run") =
      some (.file "#!/bin/bash\n#Foo daemon\n\nexec /usr/bin/foo >>/var/log/foo.log 2>&1\n"
        0o644) := by
  refine ⟨by decide, by decide, by decide⟩

end Daemon
